import Mathlib

/-!
Verification of `literate`, anchor scanner and transducer (`main.go`).

A shallow embedding of the line transducer of `literate` and of its helpers
`detectAnchor`, `linePastAnchor`, `fmtCodeBlockPrologue` and `wrapErr`, of the
validation of `parseArgs` and of `main`.

Modelling conventions

* A Go `string` is a finite sequence of bytes.  It is embedded as a
  `List Char`, one `Char` standing for one byte; positions and lengths count
  list elements.  Nothing below depends on the alphabet beyond decidable
  equality and the space byte.
* Go `int` values that may be `-1` (results of `strings.Index`, the index
  returned by `detectAnchor`) are `Int`.  `lineno` is a `Nat`: it starts at 1
  and is incremented at most once per input line, so it stays far below
  `2^63` for any input that fits in memory.
* A Go `error` is embedded by its text (the result of `Error()`).  A run time
  slice-bounds failure of `line[k:]` is the separate outcome
  `Failure.sliceOutOfRange`.
* The loop of `literate` (lines 70-124) is `literateLoop`, a left-to-right
  iteration of `literateStep` (the body of the `for`); `literateLines` is the
  loop together with the initial values of lines 70-76 and yields the
  `outputBuffer` that line 125 joins and prints.
* Properties that count the `append`s of the prologue and of the epilogue are
  stated on `tracedLoop`, the same loop with each `append` tagged by the
  statement that makes it; `tracedLoop_erase` shows that dropping the tags
  gives `literateLoop`.
-/

namespace Literate

/-- A Go string: a sequence of bytes. -/
abbrev Str := List Char

/-! ## Library functions used by the program -/

/-- The function `strings.Index(s, substr)`: the position of the first
occurrence of `substr` in `s`, or `-1` when there is none. -/
def strings.Index : Str → Str → Int
  | [], substr => if substr = [] then 0 else -1
  | c :: s, substr =>
    if substr.isPrefixOf (c :: s) then 0
    else
      let r := strings.Index s substr
      if r = -1 then -1 else r + 1

/-- An operand handed to a formatting verb. -/
inductive Operand where
  | str (s : Str)
  | int (n : Int)
  | slice (xs : List Str)

/-- Decimal rendering of an integer, as `%v` prints it. -/
def fmtInt (n : Int) : Str :=
  if n < 0 then '-' :: Nat.toDigits 10 n.natAbs else Nat.toDigits 10 n.toNat

/-- The text `%v` prints for an operand: a string as it is, an integer in
decimal, a slice of strings as `[e1 e2 ...]`. -/
def Operand.render : Operand → Str
  | .str s => s
  | .int n => fmtInt n
  | .slice xs => '[' :: (List.intercalate [' '] xs ++ [']'])

/-- The function `fmt.Sprintf` for formats whose only verb is `%v`, with at
least as many operands as verbs. -/
def fmt.Sprintf : Str → List Operand → Str
  | '%' :: 'v' :: rest, a :: as => a.render ++ fmt.Sprintf rest as
  | c :: rest, as => c :: fmt.Sprintf rest as
  | [], _ => []

/-! ## Constants (lines 144, 165-176) -/

inductive State where
  | Free
  | Literate
  | Code
  deriving DecidableEq, Repr

def startModifier : Str := "START".toList

def endModifier : Str := "END".toList

def codeBlockEpilogue : Str := "\x7b\x7b< / highlight >\x7d\x7d".toList

/-! ## Helpers (lines 129-163) -/

deriving instance DecidableEq for Except

/-- Outcome of a failed run: an `error` value returned to `main` (by its
text), or the run time failure of a slice expression. -/
inductive Failure where
  | error (text : Str)
  | sliceOutOfRange
  deriving DecidableEq

/-- The function `linePastAnchor` (lines 129-134).  The slice
`line[pastAnchorIndex:]` is defined for `0 ≤ pastAnchorIndex ≤ len(line)`. -/
def linePastAnchor (line : Str) (pastAnchorIndex : Int) : Option Str :=
  if pastAnchorIndex = line.length then some []
  else if 0 ≤ pastAnchorIndex ∧ pastAnchorIndex ≤ line.length then
    some (line.drop pastAnchorIndex.toNat)
  else none

/-- The function `fmtCodeBlockPrologue` (lines 136-142). -/
def fmtCodeBlockPrologue (lexer : Str) (lineno : Nat) : Str :=
  fmt.Sprintf "\x7b\x7b< highlight %v \"linenos=table,linenostart=%v\" >\x7d\x7d".toList
    [.str lexer, .int lineno]

/-- The function `wrapErr` (lines 146-148).  The variadic `args` reaches the
inner `fmt.Errorf` as one operand, the slice itself. -/
def wrapErr (numFromZero : Nat) (format : Str) (args : List Str) : Str :=
  fmt.Sprintf "line %v: %v".toList
    [.int (numFromZero + 1), .str (fmt.Sprintf format [.slice args])]

/-- The function `detectAnchor` (lines 150-163). -/
def detectAnchor (line : Str) : List Str → Str × Int
  | [] => ([], -1)
  | a :: anchors =>
    let start := strings.Index line a
    if start = -1 then detectAnchor line anchors
    else
      let pastAnchorIndex := start + a.length
      if pastAnchorIndex < line.length ∧ line.get? pastAnchorIndex.toNat = some ' ' then
        (a, pastAnchorIndex + 1)
      else (a, pastAnchorIndex)

/-! ## The transducer (lines 70-126) -/

/-- The loop variables of `literate`. -/
structure Loop where
  state : State
  lineno : Nat
  outputBuffer : List Str
  deriving DecidableEq

def startAnchor (anchor : Str) : Str := anchor ++ ' ' :: startModifier

def endAnchor (anchor : Str) : Str := anchor ++ ' ' :: endModifier

def literateAnchor (anchor : Str) : Str := anchor

def anchors (anchor : Str) : List Str :=
  [startAnchor anchor, endAnchor anchor, literateAnchor anchor]

def msgOutside : Str := "unexpected anchor '%v' outside of literate block".toList

def msgLiterate : Str := "unexpected anchor '%v' inside of literate block".toList

def msgCode : Str := "unexpected anchor '%v' inside of code block".toList

/-- One iteration of the `for` loop (lines 78-123) on the line of index `i`.
The `default` branch of the outer `switch` is not reachable: `state` only
ever holds one of the three constants. -/
def literateStep (lexer anchor : Str) (i : Nat) (line : Str) (s : Loop) :
    Except Failure Loop :=
  let d := detectAnchor line (anchors anchor)
  match s.state with
  | .Free =>
    if d.1 = startAnchor anchor then .ok { s with state := .Literate }
    else if d.1 = literateAnchor anchor then .error (.error (wrapErr i msgOutside [d.1]))
    else if d.1 = endAnchor anchor then .error (.error (wrapErr i msgOutside [d.1]))
    else .ok { s with lineno := s.lineno + 1 }
  | .Literate =>
    if d.1 = startAnchor anchor then .error (.error (wrapErr i msgLiterate [d.1]))
    else if d.1 = literateAnchor anchor then
      match linePastAnchor line d.2 with
      | none => .error .sliceOutOfRange
      | some rest => .ok { s with outputBuffer := s.outputBuffer ++ [rest] }
    else if d.1 = endAnchor anchor then .ok { s with state := .Free }
    else
      .ok { state := .Code, lineno := s.lineno + 1,
            outputBuffer := s.outputBuffer ++ [[], fmtCodeBlockPrologue lexer s.lineno, line] }
  | .Code =>
    if d.1 = startAnchor anchor then .error (.error (wrapErr i msgCode [d.1]))
    else if d.1 = literateAnchor anchor then
      match linePastAnchor line d.2 with
      | none => .error .sliceOutOfRange
      | some rest =>
        .ok { s with state := .Literate,
                     outputBuffer := s.outputBuffer ++ [codeBlockEpilogue, rest] }
    else if d.1 = endAnchor anchor then
      .ok { s with state := .Free, outputBuffer := s.outputBuffer ++ [codeBlockEpilogue] }
    else .ok { s with lineno := s.lineno + 1, outputBuffer := s.outputBuffer ++ [line] }

/-- The `for i := range lines` loop, started at index `i` on the remaining
lines: the first failing iteration ends the run. -/
def literateLoop (lexer anchor : Str) : Nat → List Str → Loop → Except Failure Loop
  | _, [], s => .ok s
  | i, line :: rest, s =>
    match literateStep lexer anchor i line s with
    | .error e => .error e
    | .ok s' => literateLoop lexer anchor (i + 1) rest s'

/-- The loop variables before the first iteration (lines 70-72). -/
def initLoop : Loop := { state := .Free, lineno := 1, outputBuffer := [] }

/-- The transducer: the loop run on all lines from the initial values; on
success the result is the `outputBuffer` printed by line 125. -/
def literateLines (lexer anchor : Str) (lines : List Str) : Except Failure (List Str) :=
  match literateLoop lexer anchor 0 lines initLoop with
  | .error e => .error e
  | .ok s => .ok s.outputBuffer

/-! ## Arguments and entry point (lines 12-69) -/

/-- The type `Args` (lines 53-57). -/
structure Args where
  Lexer : Str
  Anchor : Str
  Filename : Str
  deriving DecidableEq

/-- The validation of `parseArgs` (lines 37-46), as a function of the values
left in `args` by `flag.Parse` and `flag.Arg(0)`. -/
def parseArgs (args : Args) : Except Str Args :=
  if args.Lexer = [] then .error "--lexer is a required option".toList
  else if args.Anchor = [] then .error "--anchor is a required option".toList
  else if args.Filename = [] then .error "<filename> is a required argument".toList
  else .ok args

/-- The function `strings.Split(s, "\n")`: the pieces of `s` between newline
bytes; one more piece than there are newlines. -/
def strings.Split : Str → List Str
  | [] => [[]]
  | c :: cs =>
    if c = '\n' then [] :: strings.Split cs
    else
      match strings.Split cs with
      | [] => [[c]]
      | l :: ls => (c :: l) :: ls

/-- What `os.Open` and `ioutil.ReadAll` give for the file named in `args`. -/
inductive FileRead where
  | openFails (cause : Str)
  | readFails (cause : Str)
  | content (bytes : Str)

/-- The function `literate` (lines 59-127), given the outcome of opening and
reading the file. -/
def literate (args : Args) (file : FileRead) : Except Failure (List Str) :=
  match file with
  | .openFails cause =>
    .error (.error (fmt.Sprintf "cannot open file '%v' for reading: %v".toList
      [.str args.Filename, .str cause]))
  | .readFails cause =>
    .error (.error (fmt.Sprintf "cannot read from file '%v': %v".toList
      [.str args.Filename, .str cause]))
  | .content bytes => literateLines args.Lexer args.Anchor (strings.Split bytes)

/-- How `main` ends: with the usage text after a failed `parseArgs`, or after
a call of `literate`, with its result. -/
inductive MainOutcome where
  | usage (logged : Str)
  | ran (args : Args) (result : Except Failure (List Str))
  deriving DecidableEq

/-- The function `main` (lines 12-24). -/
def main (args : Args) (file : FileRead) : MainOutcome :=
  match parseArgs args with
  | .error e => .usage e
  | .ok a => .ran a (literate a file)

/-! ## Output events -/

/-- One `append` to `outputBuffer`, tagged by the statement that makes it:
the prologue of line 101, the epilogue of lines 111 and 115, or a line of
text (lines 96, 100, 102, 112, 118). -/
inductive Emit where
  | text (s : Str)
  | prologue (lexer : Str) (lineno : Nat)
  | epilogue
  deriving DecidableEq

/-- The string appended by an event. -/
def Emit.render : Emit → Str
  | .text s => s
  | .prologue lexer lineno => fmtCodeBlockPrologue lexer lineno
  | .epilogue => codeBlockEpilogue

/-- The loop variables, the output kept as the sequence of appends. -/
structure Traced where
  state : State
  lineno : Nat
  emitted : List Emit
  deriving DecidableEq

/-- The loop variables of the program under a traced state. -/
def Traced.erase (t : Traced) : Loop :=
  { state := t.state, lineno := t.lineno, outputBuffer := t.emitted.map Emit.render }

/-- The iteration `literateStep`, each `append` recorded as an event. -/
def tracedStep (lexer anchor : Str) (i : Nat) (line : Str) (t : Traced) :
    Except Failure Traced :=
  let d := detectAnchor line (anchors anchor)
  match t.state with
  | .Free =>
    if d.1 = startAnchor anchor then .ok { t with state := .Literate }
    else if d.1 = literateAnchor anchor then .error (.error (wrapErr i msgOutside [d.1]))
    else if d.1 = endAnchor anchor then .error (.error (wrapErr i msgOutside [d.1]))
    else .ok { t with lineno := t.lineno + 1 }
  | .Literate =>
    if d.1 = startAnchor anchor then .error (.error (wrapErr i msgLiterate [d.1]))
    else if d.1 = literateAnchor anchor then
      match linePastAnchor line d.2 with
      | none => .error .sliceOutOfRange
      | some rest => .ok { t with emitted := t.emitted ++ [.text rest] }
    else if d.1 = endAnchor anchor then .ok { t with state := .Free }
    else
      .ok { state := .Code, lineno := t.lineno + 1,
            emitted := t.emitted ++ [.text [], .prologue lexer t.lineno, .text line] }
  | .Code =>
    if d.1 = startAnchor anchor then .error (.error (wrapErr i msgCode [d.1]))
    else if d.1 = literateAnchor anchor then
      match linePastAnchor line d.2 with
      | none => .error .sliceOutOfRange
      | some rest =>
        .ok { t with state := .Literate, emitted := t.emitted ++ [.epilogue, .text rest] }
    else if d.1 = endAnchor anchor then
      .ok { t with state := .Free, emitted := t.emitted ++ [.epilogue] }
    else .ok { t with lineno := t.lineno + 1, emitted := t.emitted ++ [.text line] }

/-- The loop `literateLoop` over traced states. -/
def tracedLoop (lexer anchor : Str) : Nat → List Str → Traced → Except Failure Traced
  | _, [], t => .ok t
  | i, line :: rest, t =>
    match tracedStep lexer anchor i line t with
    | .error e => .error e
    | .ok t' => tracedLoop lexer anchor (i + 1) rest t'

def initTraced : Traced := { state := .Free, lineno := 1, emitted := [] }

/-- Number of prologue events. -/
def countPrologues (es : List Emit) : Nat :=
  es.countP (fun e => match e with | .prologue _ _ => true | _ => false)

/-- Number of epilogue events. -/
def countEpilogues (es : List Emit) : Nat :=
  es.countP (fun e => match e with | .epilogue => true | _ => false)

/-- The block marks of a sequence of events, in order: `true` for a prologue,
`false` for an epilogue. -/
def blockMarks : List Emit → List Bool
  | [] => []
  | .prologue _ _ :: es => true :: blockMarks es
  | .epilogue :: es => false :: blockMarks es
  | .text _ :: es => blockMarks es

/-- The strictly alternating sequence of `n` marks that starts with a
prologue: `true, false, true, ...`. -/
def alternating (n : Nat) : List Bool :=
  (List.range n).map (fun j => decide (j % 2 = 0))

/-- The invariant of the traced loop: the block marks alternate from a
prologue on, their number is odd exactly in state `Code`, and the prologues
exceed the epilogues by one in state `Code` and by none otherwise. -/
def BlockInv (t : Traced) : Prop :=
  blockMarks t.emitted = alternating (blockMarks t.emitted).length ∧
  (blockMarks t.emitted).length % 2 = (if t.state = .Code then 1 else 0) ∧
  countPrologues t.emitted = countEpilogues t.emitted + (if t.state = .Code then 1 else 0)

/-! ## Notions used to state the properties -/

/-- The loop variables after the lines of index `0 .. i-1`. -/
def afterPrefix (lexer anchor : Str) (lines : List Str) (i : Nat) : Except Failure Loop :=
  literateLoop lexer anchor 0 (lines.take i) initLoop

/-- A line in which `detectAnchor` finds none of the three anchor forms. -/
def anchorFree (anchor line : Str) : Prop :=
  ∀ a ∈ anchors anchor, strings.Index line a = -1

instance (anchor line : Str) : Decidable (anchorFree anchor line) := by
  unfold anchorFree; infer_instance

/-- The cells of the transition table in which the loop body returns
`wrapErr` (lines 85, 87, 94, 109): state against the anchor detected. -/
def invalidTransition (anchor : Str) : State → Str → Prop
  | .Free, a => a = literateAnchor anchor ∨ a = endAnchor anchor
  | .Literate, a => a = startAnchor anchor
  | .Code, a => a = startAnchor anchor

instance (anchor : Str) (st : State) (a : Str) : Decidable (invalidTransition anchor st a) := by
  cases st <;> (unfold invalidTransition; infer_instance)

/-- Number of anchor-free lines among the given lines. -/
def countAnchorFree (anchor : Str) (lines : List Str) : Nat :=
  lines.countP (fun l => decide (anchorFree anchor l))

/-- Position `p` is the first position of `line` at which `a` occurs. -/
def firstOccurrence (line a : Str) (p : Nat) : Prop :=
  a <+: line.drop p ∧ ∀ q < p, ¬ a <+: line.drop q

/-! ## `strings.Index` -/

theorem Index_ge (s sub : Str) : -1 ≤ strings.Index s sub := by
  induction s with
  | nil => simp only [strings.Index]; split <;> omega
  | cons c s ih => simp only [strings.Index]; split <;> [omega; (split <;> omega)]

theorem Index_eq_neg_one (s sub : Str) (h : strings.Index s sub = -1) :
    ∀ q, ¬ sub <+: s.drop q := by
  induction s with
  | nil =>
    intro q hq
    simp only [strings.Index] at h
    split at h
    · omega
    · rename_i hne
      simp at hq
      exact hne hq
  | cons c s ih =>
    simp only [strings.Index] at h
    split at h
    · omega
    · rename_i hpre
      split at h
      · rename_i hr
        intro q
        cases q with
        | zero =>
          intro hq
          exact hpre (List.isPrefixOf_iff_prefix.mpr (by simpa using hq))
        | succ q => simpa using ih hr q
      · have := Index_ge s sub
        omega

theorem Index_found (s sub : Str) (h : strings.Index s sub ≠ -1) :
    ∃ p : Nat, strings.Index s sub = (p : Int) ∧ firstOccurrence s sub p := by
  induction s with
  | nil =>
    simp only [strings.Index] at h ⊢
    split at h
    · rename_i he
      subst he
      exact ⟨0, by simp, by simp [firstOccurrence]⟩
    · exact absurd rfl h
  | cons c s ih =>
    simp only [strings.Index] at h ⊢
    split
    · rename_i hpre
      exact ⟨0, by simp, by simpa [firstOccurrence] using List.isPrefixOf_iff_prefix.mp hpre⟩
    · rename_i hpre
      split
      · rename_i hr
        simp [hpre, hr] at h
      · rename_i hr
        obtain ⟨p, hp, hocc, hfirst⟩ := ih hr
        refine ⟨p + 1, by rw [hp]; simp, by simpa using hocc, ?_⟩
        intro q hq
        cases q with
        | zero =>
          intro hq0
          exact hpre (List.isPrefixOf_iff_prefix.mpr (by simpa using hq0))
        | succ q => simpa using hfirst q (by omega)

theorem firstOccurrence_bound {line a : Str} {p : Nat} (h : firstOccurrence line a p) :
    p + a.length ≤ line.length := by
  have h1 := h.1.length_le
  simp only [List.length_drop] at h1
  by_cases hp : p ≤ line.length
  · omega
  · have hq : ¬ a <+: line.drop line.length := h.2 line.length (by omega)
    have h2 : line.drop p = [] := List.drop_eq_nil_of_le (by omega)
    have h3 : line.drop line.length = [] := List.drop_eq_nil_of_le (by omega)
    rw [h3] at hq
    exact absurd (h2 ▸ h.1) hq

theorem infix_iff_prefix_drop (a l : Str) : a <:+: l ↔ ∃ q, a <+: l.drop q := by
  constructor
  · rintro ⟨u, v, rfl⟩
    exact ⟨u.length, by simp [List.append_assoc]⟩
  · rintro ⟨q, hq⟩
    exact hq.isInfix.trans (List.drop_suffix q l).isInfix

theorem Index_eq_neg_one_iff (s sub : Str) : strings.Index s sub = -1 ↔ ¬ sub <:+: s := by
  constructor
  · intro h hin
    obtain ⟨q, hq⟩ := (infix_iff_prefix_drop sub s).mp hin
    exact Index_eq_neg_one s sub h q hq
  · intro h
    by_contra hne
    obtain ⟨p, _, hocc, _⟩ := Index_found s sub hne
    exact h ((infix_iff_prefix_drop sub s).mpr ⟨p, hocc⟩)

/-! ## `detectAnchor` -/

theorem detectAnchor_skip (line a : Str) (as : List Str) (h : strings.Index line a = -1) :
    detectAnchor line (a :: as) = detectAnchor line as := by
  simp [detectAnchor, h]

theorem detectAnchor_hit (line a : Str) (as : List Str) (p : Nat)
    (h : strings.Index line a = (p : Int)) :
    detectAnchor line (a :: as)
      = (a, ((p + a.length + (if line.get? (p + a.length) = some ' ' then 1 else 0) : Nat) : Int)) := by
  have hne : ¬ ((p : Int) = -1) := by omega
  have hcast : ((p : Int) + (a.length : Int)).toNat = p + a.length := by omega
  simp only [detectAnchor, h, hne, if_false, hcast]
  by_cases hsp : line.get? (p + a.length) = some ' '
  · have hlt : p + a.length < line.length := by
      by_contra hge
      rw [List.get?_eq_none.mpr (by omega)] at hsp
      exact absurd hsp (by simp)
    have hlt2 : (p : Int) + (a.length : Int) < (line.length : Int) := by omega
    simp only [hsp, hlt2, and_self, if_true]
    congr 1
  · simp only [hsp, and_false, if_false]
    congr 1

theorem detectAnchor_fst_of_infix (line a : Str) (as : List Str) (h : a <:+: line) :
    (detectAnchor line (a :: as)).1 = a := by
  have hne : strings.Index line a ≠ -1 := fun he => (Index_eq_neg_one_iff line a).mp he h
  obtain ⟨p, hp, _⟩ := Index_found line a hne
  rw [detectAnchor_hit line a as p hp]

theorem detectAnchor_none (line : Str) (as : List Str)
    (h : ∀ a ∈ as, strings.Index line a = -1) : detectAnchor line as = ([], -1) := by
  induction as with
  | nil => rfl
  | cons a as ih =>
    rw [detectAnchor_skip line a as (h a (by simp))]
    exact ih (fun b hb => h b (by simp [hb]))

/-- When some anchor of the list occurs in the line, the anchor returned is
the first such anchor of the list, and the index is the end of its first
occurrence, one more when a space follows. -/
theorem detectAnchor_some (line : Str) (as : List Str)
    (h : ∃ a ∈ as, strings.Index line a ≠ -1) :
    ∃ (pre post : List Str) (a : Str) (p : Nat),
      as = pre ++ a :: post ∧ (∀ b ∈ pre, strings.Index line b = -1) ∧
      firstOccurrence line a p ∧
      detectAnchor line as
        = (a, ((p + a.length + (if line.get? (p + a.length) = some ' ' then 1 else 0) : Nat) : Int)) := by
  induction as with
  | nil => simp at h
  | cons a as ih =>
    by_cases ha : strings.Index line a = -1
    · have h2 : ∃ b ∈ as, strings.Index line b ≠ -1 := by
        obtain ⟨b, hb, hbne⟩ := h
        rcases List.mem_cons.mp hb with rfl | hb
        · exact absurd ha hbne
        · exact ⟨b, hb, hbne⟩
      obtain ⟨pre, post, b, p, has, hpre, hocc, hd⟩ := ih h2
      refine ⟨a :: pre, post, b, p, by simp [has], ?_, hocc, ?_⟩
      · intro c hc
        rcases List.mem_cons.mp hc with rfl | hc
        · exact ha
        · exact hpre c hc
      · rw [detectAnchor_skip line a as ha]
        exact hd
    · obtain ⟨p, hp, hocc⟩ := Index_found line a ha
      exact ⟨[], as, a, p, by simp, by simp, hocc, detectAnchor_hit line a as p hp⟩

/-! ## The three anchor forms -/

theorem startAnchor_ne_literateAnchor (token : Str) : startAnchor token ≠ literateAnchor token := by
  intro h
  have := congrArg List.length h
  simp [startAnchor, literateAnchor, startModifier] at this

theorem endAnchor_ne_literateAnchor (token : Str) : endAnchor token ≠ literateAnchor token := by
  intro h
  have := congrArg List.length h
  simp [endAnchor, literateAnchor, endModifier] at this

theorem startAnchor_ne_endAnchor (token : Str) : startAnchor token ≠ endAnchor token := by
  intro h
  have := congrArg List.length h
  simp [startAnchor, endAnchor, startModifier, endModifier] at this

theorem startAnchor_ne_nil (token : Str) : startAnchor token ≠ [] := by
  simp [startAnchor]

theorem endAnchor_ne_nil (token : Str) : endAnchor token ≠ [] := by
  simp [endAnchor]

theorem token_infix_of_startAnchor {token line : Str} (h : startAnchor token <:+: line) :
    token <:+: line :=
  (List.prefix_append token _).isInfix.trans h

theorem token_infix_of_endAnchor {token line : Str} (h : endAnchor token <:+: line) :
    token <:+: line :=
  (List.prefix_append token _).isInfix.trans h

theorem anchorFree_iff (token line : Str) : anchorFree token line ↔ ¬ token <:+: line := by
  constructor
  · intro h
    exact (Index_eq_neg_one_iff line token).mp (h token (by simp [anchors, literateAnchor]))
  · intro h a ha
    simp only [anchors, literateAnchor, List.mem_cons, List.mem_singleton, List.not_mem_nil,
      or_false] at ha
    rw [Index_eq_neg_one_iff]
    rcases ha with rfl | rfl | rfl
    · exact fun hs => h (token_infix_of_startAnchor hs)
    · exact fun he => h (token_infix_of_endAnchor he)
    · exact h

/-! ## Outcome of `detectAnchor` on the three forms -/

theorem nil_infix_line (line : Str) : ([] : Str) <:+: line := ⟨[], line, by simp⟩

theorem anchorFree_token_ne_nil {token line : Str} (h : anchorFree token line) : token ≠ [] := by
  rintro rfl
  exact (anchorFree_iff [] line).mp h (nil_infix_line line)

theorem detectAnchor_anchorFree {token line : Str} (h : anchorFree token line) :
    detectAnchor line (anchors token) = ([], -1) :=
  detectAnchor_none line (anchors token) h

/-- A line that is not anchor-free: the result is one of the three forms, it
occurs in the line, and the index is a valid slice bound. -/
theorem detectAnchor_matched {token line : Str} (h : ¬ anchorFree token line) :
    (detectAnchor line (anchors token)).1 ∈ anchors token ∧
    strings.Index line (detectAnchor line (anchors token)).1 ≠ -1 ∧
    0 ≤ (detectAnchor line (anchors token)).2 ∧
    (detectAnchor line (anchors token)).2 ≤ line.length := by
  have hex : ∃ a ∈ anchors token, strings.Index line a ≠ -1 := by
    by_contra hno
    apply h
    intro a ha
    by_contra hne
    exact hno ⟨a, ha, hne⟩
  obtain ⟨pre, post, a, p, has, _, hocc, hd⟩ := detectAnchor_some line (anchors token) hex
  have hb := firstOccurrence_bound hocc
  have hidx : strings.Index line a ≠ -1 := by
    rw [Ne, Index_eq_neg_one_iff, not_not, infix_iff_prefix_drop]
    exact ⟨p, hocc.1⟩
  rw [hd]
  refine ⟨by rw [has]; simp, hidx, by simp only; omega, ?_⟩
  simp only
  by_cases hsp : line.get? (p + a.length) = some ' '
  · have hlt : p + a.length < line.length := by
      by_contra hge
      rw [List.get?_eq_none.mpr (by omega)] at hsp
      exact absurd hsp (by simp)
    simp only [hsp, if_true]
    omega
  · simp only [hsp, if_false]
    omega

/-- Whenever the anchor returned is the bare anchor, the index returned is a
valid lower bound of a slice of the line. -/
theorem detectAnchor_literate_bounds {token line : Str}
    (h : (detectAnchor line (anchors token)).1 = literateAnchor token) :
    0 ≤ (detectAnchor line (anchors token)).2 ∧
    (detectAnchor line (anchors token)).2 ≤ line.length := by
  by_cases hfree : anchorFree token line
  · have hne := anchorFree_token_ne_nil hfree
    rw [detectAnchor_anchorFree hfree] at h
    exact absurd h.symm hne
  · exact (detectAnchor_matched hfree).2.2

theorem linePastAnchor_of_bounds (line : Str) (k : Int) (h0 : 0 ≤ k) (h1 : k ≤ line.length) :
    linePastAnchor line k = some (line.drop k.toNat) := by
  unfold linePastAnchor
  split
  · rename_i he
    have : k.toNat = line.length := by omega
    rw [this, List.drop_length]
  · simp [h0, h1]

/-! ## One iteration -/

/-- The `default` branches: an anchor-free line. -/
theorem literateStep_anchorFree (lexer : Str) {token line : Str} (i : Nat) (s : Loop)
    (h : anchorFree token line) :
    literateStep lexer token i line s = .ok
      (match s.state with
       | .Free => { s with lineno := s.lineno + 1 }
       | .Literate =>
         { state := .Code, lineno := s.lineno + 1,
           outputBuffer := s.outputBuffer ++ [[], fmtCodeBlockPrologue lexer s.lineno, line] }
       | .Code => { s with lineno := s.lineno + 1, outputBuffer := s.outputBuffer ++ [line] }) := by
  have hne := anchorFree_token_ne_nil h
  have h1 : ¬ (([] : Str) = startAnchor token) := fun e => startAnchor_ne_nil token e.symm
  have h2 : ¬ (([] : Str) = endAnchor token) := fun e => endAnchor_ne_nil token e.symm
  have h3 : ¬ (([] : Str) = literateAnchor token) := fun e => hne e.symm
  simp only [literateStep, detectAnchor_anchorFree h, h1, h2, h3, if_false]
  cases s.state <;> rfl

theorem literateStep_start (lexer : Str) {token line : Str} (i : Nat) (s : Loop)
    (h : (detectAnchor line (anchors token)).1 = startAnchor token) :
    literateStep lexer token i line s =
      match s.state with
      | .Free => .ok { s with state := .Literate }
      | .Literate => .error (.error (wrapErr i msgLiterate [startAnchor token]))
      | .Code => .error (.error (wrapErr i msgCode [startAnchor token])) := by
  simp only [literateStep, h, if_true]

theorem literateStep_literate (lexer : Str) {token line : Str} (i : Nat) (s : Loop)
    (h : (detectAnchor line (anchors token)).1 = literateAnchor token) :
    literateStep lexer token i line s =
      match s.state with
      | .Free => .error (.error (wrapErr i msgOutside [literateAnchor token]))
      | .Literate =>
        .ok { s with outputBuffer := s.outputBuffer
                ++ [line.drop (detectAnchor line (anchors token)).2.toNat] }
      | .Code =>
        .ok { s with state := .Literate,
                     outputBuffer := s.outputBuffer
                ++ [codeBlockEpilogue, line.drop (detectAnchor line (anchors token)).2.toNat] } := by
  have hb := detectAnchor_literate_bounds h
  have hp := linePastAnchor_of_bounds line _ hb.1 hb.2
  have h1 : ¬ (literateAnchor token = startAnchor token) :=
    fun e => startAnchor_ne_literateAnchor token e.symm
  simp only [literateStep, h, h1, hp, if_true, if_false]

theorem literateStep_end (lexer : Str) {token line : Str} (i : Nat) (s : Loop)
    (h : (detectAnchor line (anchors token)).1 = endAnchor token) :
    literateStep lexer token i line s =
      match s.state with
      | .Free => .error (.error (wrapErr i msgOutside [endAnchor token]))
      | .Literate => .ok { s with state := .Free }
      | .Code =>
        .ok { s with state := .Free, outputBuffer := s.outputBuffer ++ [codeBlockEpilogue] } := by
  have h1 : ¬ (endAnchor token = startAnchor token) :=
    fun e => startAnchor_ne_endAnchor token e.symm
  have h2 : ¬ (endAnchor token = literateAnchor token) := endAnchor_ne_literateAnchor token
  simp only [literateStep, h, h1, h2, if_true, if_false]

/-- Every line falls in exactly one of the four columns of the transition
table. -/
theorem detectAnchor_cases (token line : Str) :
    anchorFree token line ∨
    (¬ anchorFree token line ∧
      ((detectAnchor line (anchors token)).1 = startAnchor token ∨
       (detectAnchor line (anchors token)).1 = endAnchor token ∨
       (detectAnchor line (anchors token)).1 = literateAnchor token)) := by
  by_cases h : anchorFree token line
  · exact Or.inl h
  · refine Or.inr ⟨h, ?_⟩
    have hm := (detectAnchor_matched h).1
    simpa [anchors] using hm

/-! ## The loop -/

theorem literateLoop_append (lexer token : Str) (xs ys : List Str) (i : Nat) (s : Loop) :
    literateLoop lexer token i (xs ++ ys) s =
      match literateLoop lexer token i xs s with
      | .error e => .error e
      | .ok s' => literateLoop lexer token (i + xs.length) ys s' := by
  induction xs generalizing i s with
  | nil => simp [literateLoop]
  | cons x xs ih =>
    simp only [List.cons_append, literateLoop, List.length_cons]
    cases literateStep lexer token i x s with
    | error e => rfl
    | ok s' =>
      have hi : i + 1 + xs.length = i + (xs.length + 1) := by omega
      have := ih (i + 1) s'
      rw [hi] at this
      exact this

/-- The run split at the line of index `i`. -/
theorem literateLoop_split (lexer token : Str) (lines : List Str) (i : Nat)
    (hi : i < lines.length) :
    literateLoop lexer token 0 lines initLoop =
      match afterPrefix lexer token lines i with
      | .error e => .error e
      | .ok s =>
        match literateStep lexer token i lines[i] s with
        | .error e => .error e
        | .ok s' => literateLoop lexer token (i + 1) (lines.drop (i + 1)) s' := by
  have hsplit : lines = lines.take i ++ lines[i] :: lines.drop (i + 1) := by
    rw [← List.drop_eq_getElem_cons hi, List.take_append_drop]
  have hlen : (lines.take i).length = i := by
    rw [List.length_take]; omega
  conv_lhs => rw [hsplit]
  rw [literateLoop_append, afterPrefix, hlen, Nat.zero_add]
  cases literateLoop lexer token 0 (lines.take i) initLoop with
  | error e => rfl
  | ok s => simp only [literateLoop]

theorem afterPrefix_succ (lexer token : Str) (lines : List Str) (i : Nat)
    (hi : i < lines.length) :
    afterPrefix lexer token lines (i + 1) =
      match afterPrefix lexer token lines i with
      | .error e => .error e
      | .ok s => literateStep lexer token i lines[i] s := by
  have hlen : (lines.take i).length = i := by
    rw [List.length_take]; omega
  have htake : lines.take (i + 1) = lines.take i ++ [lines[i]] := by
    rw [List.take_succ, List.getElem?_eq_getElem hi]; rfl
  rw [afterPrefix, htake, literateLoop_append, afterPrefix, hlen, Nat.zero_add]
  cases literateLoop lexer token 0 (lines.take i) initLoop with
  | error e => rfl
  | ok s =>
    simp only [literateLoop]
    cases literateStep lexer token i lines[i] s <;> rfl

theorem afterPrefix_all (lexer token : Str) (lines : List Str) :
    afterPrefix lexer token lines lines.length = literateLoop lexer token 0 lines initLoop := by
  rw [afterPrefix, List.take_length]

/-- What a successful iteration does to `lineno` and to the output: `lineno`
advances exactly on an anchor-free line; the prologue is appended exactly in
state `Literate` on an anchor-free line, and every other line appended is the
raw line, the text past the anchor, or the epilogue. -/
theorem literateStep_ok_shape (lexer token line : Str) (i : Nat) (s s' : Loop)
    (h : literateStep lexer token i line s = .ok s') :
    s'.lineno = s.lineno + (if anchorFree token line then 1 else 0) ∧
    ((s.state = .Literate ∧ anchorFree token line ∧ s'.state = .Code ∧
        s'.outputBuffer = s.outputBuffer ++ [[], fmtCodeBlockPrologue lexer s.lineno, line]) ∨
     (¬ (s.state = .Literate ∧ anchorFree token line) ∧
        ∃ extra, s'.outputBuffer = s.outputBuffer ++ extra ∧
          ∀ x ∈ extra, x = line ∨ x = codeBlockEpilogue ∨
            x = line.drop (detectAnchor line (anchors token)).2.toNat)) := by
  rcases detectAnchor_cases token line with hfree | ⟨hnf, hs | he | hl⟩
  · rw [literateStep_anchorFree lexer i s hfree] at h
    cases hst : s.state <;> simp only [hst, Except.ok.injEq] at h <;> subst h
    · exact ⟨by simp [hfree], Or.inr ⟨by simp [hst], [], by simp, by simp⟩⟩
    · exact ⟨by simp [hfree], Or.inl ⟨rfl, hfree, rfl, rfl⟩⟩
    · exact ⟨by simp [hfree], Or.inr ⟨by simp [hst], [line], by simp, by simp⟩⟩
  · rw [literateStep_start lexer i s hs] at h
    cases hst : s.state <;> simp only [hst, Except.ok.injEq, reduceCtorEq] at h
    subst h
    exact ⟨by simp [hnf], Or.inr ⟨by simp [hnf], [], by simp, by simp⟩⟩
  · rw [literateStep_end lexer i s he] at h
    cases hst : s.state <;> simp only [hst, Except.ok.injEq, reduceCtorEq] at h <;> subst h
    · exact ⟨by simp [hnf], Or.inr ⟨by simp [hnf], [], by simp, by simp⟩⟩
    · exact ⟨by simp [hnf], Or.inr ⟨by simp [hnf], [codeBlockEpilogue], by simp, by simp⟩⟩
  · rw [literateStep_literate lexer i s hl] at h
    cases hst : s.state <;> simp only [hst, Except.ok.injEq, reduceCtorEq] at h <;> subst h
    · exact ⟨by simp [hnf], Or.inr ⟨by simp [hnf],
        [line.drop (detectAnchor line (anchors token)).2.toNat], by simp, by simp⟩⟩
    · exact ⟨by simp [hnf], Or.inr ⟨by simp [hnf],
        [codeBlockEpilogue, line.drop (detectAnchor line (anchors token)).2.toNat],
        by simp, by simp⟩⟩

/-- An iteration fails only in the four error cells of the table: in
particular the slice in `linePastAnchor` never fails. -/
theorem literateStep_ok_of_valid (lexer token line : Str) (i : Nat) (s : Loop)
    (h : ¬ invalidTransition token s.state (detectAnchor line (anchors token)).1) :
    ∃ s', literateStep lexer token i line s = .ok s' := by
  rcases detectAnchor_cases token line with hfree | ⟨_, hs | he | hl⟩
  · exact ⟨_, literateStep_anchorFree lexer i s hfree⟩
  · rw [literateStep_start lexer i s hs]
    cases hst : s.state <;> simp [hst, invalidTransition, hs] at h ⊢
  · rw [literateStep_end lexer i s he]
    cases hst : s.state <;> simp [hst, invalidTransition, he] at h ⊢
  · rw [literateStep_literate lexer i s hl]
    cases hst : s.state <;> simp [hst, invalidTransition, hl] at h ⊢

theorem countAnchorFree_take_succ (token : Str) (lines : List Str) (i : Nat)
    (hi : i < lines.length) :
    countAnchorFree token (lines.take (i + 1))
      = countAnchorFree token (lines.take i) + (if anchorFree token lines[i] then 1 else 0) := by
  have htake : lines.take (i + 1) = lines.take i ++ [lines[i]] := by
    rw [List.take_succ, List.getElem?_eq_getElem hi]; rfl
  rw [countAnchorFree, htake, List.countP_append]
  by_cases h : anchorFree token lines[i] <;> simp [countAnchorFree, List.countP_cons, h]

/-- The counter after any prefix processed without failure. -/
theorem afterPrefix_lineno (lexer token : Str) (lines : List Str) (i : Nat)
    (hi : i ≤ lines.length) (s : Loop) (hs : afterPrefix lexer token lines i = .ok s) :
    s.lineno = 1 + countAnchorFree token (lines.take i) := by
  induction i generalizing s with
  | zero =>
    simp only [afterPrefix, List.take_zero, literateLoop, Except.ok.injEq] at hs
    subst hs
    simp [initLoop, countAnchorFree]
  | succ i ih =>
    have hi2 : i < lines.length := by omega
    rw [afterPrefix_succ lexer token lines i hi2] at hs
    cases hp : afterPrefix lexer token lines i with
    | error e => simp [hp] at hs
    | ok s0 =>
      simp only [hp] at hs
      have h0 := ih (by omega) s0 hp
      have h1 := (literateStep_ok_shape lexer token lines[i] i s0 s hs).1
      rw [countAnchorFree_take_succ token lines i hi2, h1, h0]
      omega

theorem fmtInt_natCast_succ (i : Nat) : fmtInt ((i : Int) + 1) = Nat.toDigits 10 (i + 1) := by
  have h1 : ¬ ((i : Int) + 1 < 0) := by omega
  have h2 : ((i : Int) + 1).toNat = i + 1 := by omega
  simp only [fmtInt, h1, if_false, h2]

/-- The text of the error made by `wrapErr`. -/
theorem wrapErr_text (i : Nat) (format : Str) (args : List Str) :
    wrapErr i format args
      = "line ".toList ++ Nat.toDigits 10 (i + 1) ++ ": ".toList
          ++ fmt.Sprintf format [.slice args] := by
  have h : wrapErr i format args
      = "line ".toList ++ fmtInt ((i : Int) + 1) ++ ": ".toList
          ++ (fmt.Sprintf format [.slice args] ++ []) := by
    simp [wrapErr, fmt.Sprintf, Operand.render]
  rw [h, fmtInt_natCast_succ, List.append_nil]

theorem literateLoop_free_anchorFree (lexer token : Str) (xs : List Str) (i : Nat) (s : Loop)
    (hs : s.state = .Free) (h : ∀ l ∈ xs, anchorFree token l) :
    literateLoop lexer token i xs s = .ok { s with lineno := s.lineno + xs.length } := by
  induction xs generalizing i s with
  | nil => simp [literateLoop]
  | cons x xs ih =>
    simp only [literateLoop, literateStep_anchorFree lexer i s (h x (by simp)), hs]
    rw [ih (i + 1) _ rfl (fun l hl => h l (by simp [hl]))]
    simp only [List.length_cons, Except.ok.injEq, Loop.mk.injEq, true_and, and_true]
    omega

/-- The whole run fails as soon as the iteration on line `i` fails. -/
theorem literateLines_error_at (lexer token : Str) (lines : List Str) (i : Nat)
    (hi : i < lines.length) (s : Loop) (e : Failure)
    (hs : afterPrefix lexer token lines i = .ok s)
    (he : literateStep lexer token i lines[i] s = .error e) :
    literateLines lexer token lines = .error e := by
  simp only [literateLines, literateLoop_split lexer token lines i hi, hs, he]

/-- The whole run fails as soon as a prefix fails. -/
theorem literateLines_error_of_prefix (lexer token : Str) (lines : List Str) (i : Nat)
    (e : Failure) (he : afterPrefix lexer token lines i = .error e) :
    literateLines lexer token lines = .error e := by
  have hsplit : lines = lines.take i ++ lines.drop i := (List.take_append_drop i lines).symm
  rw [literateLines]
  conv_lhs => rw [hsplit]
  rw [afterPrefix] at he
  simp only [literateLoop_append, he]

/-- In state `Free`, a line without start-anchor is either anchor-free and
skipped, or rejected with the `outside of literate block` error. -/
theorem literateStep_free_no_start (lexer token line : Str) (i : Nat) (s : Loop)
    (hs : s.state = .Free) (h : ¬ startAnchor token <:+: line) :
    (anchorFree token line ∧
      literateStep lexer token i line s = .ok { s with lineno := s.lineno + 1 }) ∨
    (¬ anchorFree token line ∧
      literateStep lexer token i line s
        = .error (.error (wrapErr i msgOutside [(detectAnchor line (anchors token)).1]))) := by
  rcases detectAnchor_cases token line with hfree | ⟨hnf, hst | he | hl⟩
  · exact Or.inl ⟨hfree, by rw [literateStep_anchorFree lexer i s hfree, hs]⟩
  · have hidx := (detectAnchor_matched hnf).2.1
    rw [hst, Ne, Index_eq_neg_one_iff, not_not] at hidx
    exact absurd hidx h
  · exact Or.inr ⟨hnf, by rw [literateStep_end lexer i s he, hs, he]⟩
  · exact Or.inr ⟨hnf, by rw [literateStep_literate lexer i s hl, hs, hl]⟩

/-- Before the first start-anchor line the run is in state `Free`, unless it
has already failed with the `outside of literate block` error. -/
theorem afterPrefix_before_first_start (lexer token : Str) (lines : List Str) (n : Nat)
    (hn : n ≤ lines.length) (h : ∀ l ∈ lines.take n, ¬ startAnchor token <:+: l) :
    (∃ s, afterPrefix lexer token lines n = .ok s ∧ s.state = .Free) ∨
    (∃ j, j < n ∧ ∃ a, afterPrefix lexer token lines n
        = .error (.error (wrapErr j msgOutside [a]))) := by
  induction n with
  | zero => exact Or.inl ⟨initLoop, rfl, rfl⟩
  | succ n ih =>
    have hn2 : n < lines.length := by omega
    have htake : lines.take (n + 1) = lines.take n ++ [lines[n]] := by
      rw [List.take_succ, List.getElem?_eq_getElem hn2]; rfl
    have hline : ¬ startAnchor token <:+: lines[n] := h _ (by rw [htake]; exact List.mem_append_right _ (List.mem_singleton_self _))
    rw [afterPrefix_succ lexer token lines n hn2]
    rcases ih (by omega) (fun l hl => h l (by rw [htake]; exact List.mem_append_left _ hl)) with
      ⟨s, hs, hst⟩ | ⟨j, hj, a, he⟩
    · rw [hs]
      rcases literateStep_free_no_start lexer token lines[n] n s hst hline with
        ⟨_, hok⟩ | ⟨_, herr⟩
      · exact Or.inl ⟨_, hok, hst⟩
      · exact Or.inr ⟨n, by omega, _, herr⟩
    · rw [he]
      exact Or.inr ⟨j, by omega, a, rfl⟩

/-- When no iteration meets an error cell of the table, every prefix of the
run ends without failure. -/
theorem afterPrefix_ok_of_valid (lexer token : Str) (lines : List Str)
    (h : ∀ i (hi : i < lines.length) s, afterPrefix lexer token lines i = .ok s →
      ¬ invalidTransition token s.state (detectAnchor lines[i] (anchors token)).1)
    (n : Nat) (hn : n ≤ lines.length) :
    ∃ s, afterPrefix lexer token lines n = .ok s := by
  induction n with
  | zero => exact ⟨initLoop, rfl⟩
  | succ n ih =>
    have hn2 : n < lines.length := by omega
    obtain ⟨s, hs⟩ := ih (by omega)
    obtain ⟨s', hs'⟩ := literateStep_ok_of_valid lexer token lines[n] n s (h n hn2 s hs)
    exact ⟨s', by rw [afterPrefix_succ lexer token lines n hn2, hs]; exact hs'⟩

/-- The bare anchor is returned only when it was matched in the line. -/
theorem detectAnchor_literate_matched {token line : Str}
    (h : (detectAnchor line (anchors token)).1 = literateAnchor token) :
    strings.Index line (literateAnchor token) ≠ -1 := by
  by_cases hfree : anchorFree token line
  · have hne := anchorFree_token_ne_nil hfree
    rw [detectAnchor_anchorFree hfree] at h
    exact absurd h.symm hne
  · have := (detectAnchor_matched hfree).2.1
    rwa [h] at this

/-- An iteration never fails in the slice of `linePastAnchor`. -/
theorem literateStep_ne_sliceOutOfRange (lexer token line : Str) (i : Nat) (s : Loop) :
    literateStep lexer token i line s ≠ .error .sliceOutOfRange := by
  rcases detectAnchor_cases token line with hfree | ⟨_, hs | he | hl⟩
  · rw [literateStep_anchorFree lexer i s hfree]; simp
  · rw [literateStep_start lexer i s hs]; cases s.state <;> simp
  · rw [literateStep_end lexer i s he]; cases s.state <;> simp
  · rw [literateStep_literate lexer i s hl]; cases s.state <;> simp

theorem literateLoop_ne_sliceOutOfRange (lexer token : Str) (lines : List Str) (i : Nat)
    (s : Loop) : literateLoop lexer token i lines s ≠ .error .sliceOutOfRange := by
  induction lines generalizing i s with
  | nil => simp [literateLoop]
  | cons x xs ih =>
    simp only [literateLoop]
    cases hstep : literateStep lexer token i x s with
    | error e =>
      intro h
      simp only [Except.error.injEq] at h
      exact literateStep_ne_sliceOutOfRange lexer token x i s (by rw [hstep, h])
    | ok s' => exact ih (i + 1) s'

/-- Prose lines in state `Literate`: each appends its text past the anchor. -/
theorem literateLoop_prose (lexer token : Str) (xs : List Str) (i : Nat) (s : Loop)
    (hs : s.state = .Literate)
    (h : ∀ l ∈ xs, (detectAnchor l (anchors token)).1 = literateAnchor token) :
    literateLoop lexer token i xs s
      = .ok { s with outputBuffer := s.outputBuffer
                ++ xs.map (fun l => l.drop (detectAnchor l (anchors token)).2.toNat) } := by
  induction xs generalizing i s with
  | nil => simp [literateLoop]
  | cons x xs ih =>
    simp only [literateLoop, literateStep_literate lexer i s (h x (by simp)), hs]
    rw [ih (i + 1) _ rfl (fun l hl => h l (by simp [hl]))]
    simp [hs]

/-- Anchor-free lines in state `Code`: each is appended and counted. -/
theorem literateLoop_code (lexer token : Str) (xs : List Str) (i : Nat) (s : Loop)
    (hs : s.state = .Code) (h : ∀ l ∈ xs, anchorFree token l) :
    literateLoop lexer token i xs s
      = .ok { s with lineno := s.lineno + xs.length,
                     outputBuffer := s.outputBuffer ++ xs } := by
  induction xs generalizing i s with
  | nil => simp [literateLoop]
  | cons x xs ih =>
    simp only [literateLoop, literateStep_anchorFree lexer i s (h x (by simp)), hs]
    rw [ih (i + 1) _ rfl (fun l hl => h l (by simp [hl]))]
    simp only [List.length_cons, Except.ok.injEq, Loop.mk.injEq, true_and, List.append_assoc,
      List.singleton_append, and_true]
    omega

/-! ## Monotonicity of the run -/

theorem literateStep_output_extends (lexer token line : Str) (i : Nat) (s s' : Loop)
    (h : literateStep lexer token i line s = .ok s') :
    s.outputBuffer <+: s'.outputBuffer := by
  rcases (literateStep_ok_shape lexer token line i s s' h).2 with h1 | ⟨_, extra, he, _⟩
  · rw [h1.2.2.2]; exact List.prefix_append _ _
  · rw [he]; exact List.prefix_append _ _

theorem literateLoop_output_extends (lexer token : Str) (xs : List Str) (i : Nat) (s s' : Loop)
    (h : literateLoop lexer token i xs s = .ok s') :
    s.outputBuffer <+: s'.outputBuffer := by
  induction xs generalizing i s with
  | nil =>
    simp only [literateLoop, Except.ok.injEq] at h
    rw [h]
  | cons x xs ih =>
    simp only [literateLoop] at h
    cases hstep : literateStep lexer token i x s with
    | error e => simp [hstep] at h
    | ok s1 =>
      simp only [hstep] at h
      exact (literateStep_output_extends lexer token x i s s1 hstep).trans (ih (i + 1) s1 h)

/-- A failing iteration on the line of index `i` returns an error whose text
begins `line <i+1>: `. -/
theorem literateStep_error_text (lexer token line : Str) (i : Nat) (s : Loop) (e : Failure)
    (h : literateStep lexer token i line s = .error e) :
    ∃ cause, e = .error ("line ".toList ++ Nat.toDigits 10 (i + 1) ++ ": ".toList ++ cause) := by
  rcases detectAnchor_cases token line with hfree | ⟨_, hs | he | hl⟩
  · rw [literateStep_anchorFree lexer i s hfree] at h
    simp at h
  · rw [literateStep_start lexer i s hs] at h
    cases hst : s.state <;> simp only [hst, Except.error.injEq, reduceCtorEq] at h <;>
      exact ⟨_, by rw [← h, wrapErr_text]⟩
  · rw [literateStep_end lexer i s he] at h
    cases hst : s.state <;> simp only [hst, Except.error.injEq, reduceCtorEq] at h
    exact ⟨_, by rw [← h, wrapErr_text]⟩
  · rw [literateStep_literate lexer i s hl] at h
    cases hst : s.state <;> simp only [hst, Except.error.injEq, reduceCtorEq] at h
    exact ⟨_, by rw [← h, wrapErr_text]⟩

/-- A failed prefix has a first failing iteration. -/
theorem afterPrefix_first_error (lexer token : Str) (lines : List Str) (n : Nat)
    (hn : n ≤ lines.length) (e : Failure) (h : afterPrefix lexer token lines n = .error e) :
    ∃ i, ∃ hi : i < lines.length, ∃ s, afterPrefix lexer token lines i = .ok s ∧
      literateStep lexer token i lines[i] s = .error e := by
  induction n with
  | zero => simp [afterPrefix, literateLoop] at h
  | succ n ih =>
    have hn2 : n < lines.length := by omega
    rw [afterPrefix_succ lexer token lines n hn2] at h
    cases hp : afterPrefix lexer token lines n with
    | error e' =>
      simp only [hp, Except.error.injEq] at h
      subst h
      exact ih (by omega) hp
    | ok s =>
      simp only [hp] at h
      exact ⟨n, hn2, s, hp, h⟩

/-! ## The counter against the physical line number -/

theorem countAnchorFree_take_le (token : Str) (lines : List Str) (i : Nat) :
    countAnchorFree token (lines.take i) ≤ i := by
  have h1 : countAnchorFree token (lines.take i) ≤ (lines.take i).length :=
    List.countP_le_length _
  have h2 : (lines.take i).length ≤ i := by
    rw [List.length_take]; exact Nat.min_le_left _ _
  omega

/-- Outside state `Free`, at least one of the lines processed was an anchor
line. -/
theorem afterPrefix_count_lt (lexer token : Str) (lines : List Str) (i : Nat)
    (hi : i ≤ lines.length) (s : Loop) (hs : afterPrefix lexer token lines i = .ok s)
    (hst : s.state ≠ .Free) :
    countAnchorFree token (lines.take i) < i := by
  induction i generalizing s with
  | zero =>
    simp only [afterPrefix, List.take_zero, literateLoop, Except.ok.injEq] at hs
    subst hs
    exact absurd rfl hst
  | succ i ih =>
    have hi2 : i < lines.length := by omega
    rw [afterPrefix_succ lexer token lines i hi2] at hs
    cases hp : afterPrefix lexer token lines i with
    | error e => simp [hp] at hs
    | ok s0 =>
      simp only [hp] at hs
      rw [countAnchorFree_take_succ token lines i hi2]
      by_cases hfree : anchorFree token lines[i]
      · have h0 : s0.state ≠ .Free := by
          intro h0
          rw [literateStep_anchorFree lexer i s0 hfree, h0] at hs
          simp only [Except.ok.injEq] at hs
          subst hs
          exact hst rfl
        have := ih (by omega) s0 hp h0
        simp only [hfree, if_true]
        omega
      · have := countAnchorFree_take_le token lines i
        simp only [hfree, if_false]
        omega

/-! ## The traced loop -/

/-- Erasing the tags of a traced iteration gives the iteration of the
program. -/
theorem tracedStep_erase (lexer token line : Str) (i : Nat) (t : Traced) :
    (tracedStep lexer token i line t).map Traced.erase
      = literateStep lexer token i line t.erase := by
  unfold tracedStep literateStep
  simp only [Traced.erase]
  cases t.state <;> simp only <;> split_ifs <;>
    first
    | rfl
    | (simp [Except.map, Emit.render, Traced.erase]; done)
    | (cases linePastAnchor line (detectAnchor line (anchors token)).2 <;>
        simp [Except.map, Emit.render, Traced.erase])

theorem tracedLoop_erase (lexer token : Str) (xs : List Str) (i : Nat) (t : Traced) :
    (tracedLoop lexer token i xs t).map Traced.erase
      = literateLoop lexer token i xs t.erase := by
  induction xs generalizing i t with
  | nil => rfl
  | cons x xs ih =>
    simp only [tracedLoop, literateLoop, ← tracedStep_erase]
    cases tracedStep lexer token i x t with
    | error e => rfl
    | ok t' => exact ih (i + 1) t'

theorem tracedLoop_append (lexer token : Str) (xs ys : List Str) (i : Nat) (t : Traced) :
    tracedLoop lexer token i (xs ++ ys) t =
      match tracedLoop lexer token i xs t with
      | .error e => .error e
      | .ok t' => tracedLoop lexer token (i + xs.length) ys t' := by
  induction xs generalizing i t with
  | nil => simp [tracedLoop]
  | cons x xs ih =>
    simp only [List.cons_append, tracedLoop, List.length_cons]
    cases tracedStep lexer token i x t with
    | error e => rfl
    | ok t' =>
      have hi : i + 1 + xs.length = i + (xs.length + 1) := by omega
      have := ih (i + 1) t'
      rw [hi] at this
      exact this

/-- The events of a successful traced iteration, by state before and after. -/
theorem tracedStep_ok_shape (lexer token line : Str) (i : Nat) (t t' : Traced)
    (h : tracedStep lexer token i line t = .ok t') :
    (t.state ≠ .Code ∧ t'.state ≠ .Code ∧
      (t'.emitted = t.emitted ∨ ∃ r, t'.emitted = t.emitted ++ [.text r])) ∨
    (t.state = .Literate ∧ t'.state = .Code ∧
      t'.emitted = t.emitted ++ [.text [], .prologue lexer t.lineno, .text line]) ∨
    (t.state = .Code ∧ t'.state ≠ .Code ∧
      (t'.emitted = t.emitted ++ [.epilogue] ∨
        ∃ r, t'.emitted = t.emitted ++ [.epilogue, .text r])) ∨
    (t.state = .Code ∧ t'.state = .Code ∧ ∃ r, t'.emitted = t.emitted ++ [.text r]) := by
  unfold tracedStep at h
  cases hst : t.state <;> simp only [hst] at h <;> split_ifs at h <;>
    first
    | (simp only [Except.ok.injEq, reduceCtorEq] at h; subst h; simp [hst])
    | (cases hp : linePastAnchor line (detectAnchor line (anchors token)).2 <;>
        simp only [hp, Except.ok.injEq, reduceCtorEq] at h; subst h; simp [hst])

theorem alternating_succ (n : Nat) :
    alternating (n + 1) = alternating n ++ [decide (n % 2 = 0)] := by
  simp [alternating, List.range_succ]

theorem alternating_length (n : Nat) : (alternating n).length = n := by
  simp [alternating]

theorem blockMarks_append (es fs : List Emit) :
    blockMarks (es ++ fs) = blockMarks es ++ blockMarks fs := by
  induction es with
  | nil => rfl
  | cons e es ih => cases e <;> simp [blockMarks, ih]

theorem blockMarks_push (m : List Bool) (b : Bool) (h1 : m = alternating m.length)
    (hb : b = decide (m.length % 2 = 0)) : m ++ [b] = alternating (m ++ [b]).length := by
  rw [List.length_append, List.length_singleton, alternating_succ, ← h1, hb]

theorem countPrologues_append (es fs : List Emit) :
    countPrologues (es ++ fs) = countPrologues es + countPrologues fs := by
  simp [countPrologues, List.countP_append]

theorem countEpilogues_append (es fs : List Emit) :
    countEpilogues (es ++ fs) = countEpilogues es + countEpilogues fs := by
  simp [countEpilogues, List.countP_append]

theorem BlockInv_initTraced : BlockInv initTraced := by
  simp [BlockInv, initTraced, blockMarks, alternating, countPrologues, countEpilogues]

theorem tracedStep_BlockInv (lexer token line : Str) (i : Nat) (t t' : Traced)
    (hinv : BlockInv t) (h : tracedStep lexer token i line t = .ok t') : BlockInv t' := by
  obtain ⟨h1, h2, h3⟩ := hinv
  have hmarks : ∀ r : Str, blockMarks [Emit.text r] = [] := fun _ => rfl
  have hpt : ∀ r : Str, countPrologues [Emit.text r] = 0 := fun _ => rfl
  have het : ∀ r : Str, countEpilogues [Emit.text r] = 0 := fun _ => rfl
  rcases tracedStep_ok_shape lexer token line i t t' h with
    ⟨hs, hs', he | ⟨r, he⟩⟩ | ⟨hs, hs', he⟩ | ⟨hs, hs', he | ⟨r, he⟩⟩ | ⟨hs, hs', r, he⟩
  · simp only [hs, if_false] at h2 h3
    simp only [BlockInv, he, hs', if_false]
    exact ⟨h1, h2, h3⟩
  · simp only [hs, if_false] at h2 h3
    simp only [BlockInv, he, hs', if_false, blockMarks_append, hmarks, List.append_nil,
      countPrologues_append, countEpilogues_append, hpt, het]
    exact ⟨h1, h2, by omega⟩
  · have hs0 : t.state ≠ .Code := by rw [hs]; simp
    simp only [hs0, if_false] at h2 h3
    have hm : blockMarks [Emit.text [], Emit.prologue lexer t.lineno, Emit.text line] = [true] :=
      rfl
    have hp : countPrologues [Emit.text [], Emit.prologue lexer t.lineno, Emit.text line] = 1 :=
      rfl
    have hq : countEpilogues [Emit.text [], Emit.prologue lexer t.lineno, Emit.text line] = 0 :=
      rfl
    simp only [BlockInv, he, hs', if_true, blockMarks_append, hm, countPrologues_append,
      countEpilogues_append, hp, hq]
    refine ⟨blockMarks_push _ true h1 (by simp [h2]), ?_, by omega⟩
    rw [List.length_append, List.length_singleton]; omega
  · simp only [hs, if_true] at h2 h3
    have hm : blockMarks [Emit.epilogue] = [false] := rfl
    have hp : countPrologues [Emit.epilogue] = 0 := rfl
    have hq : countEpilogues [Emit.epilogue] = 1 := rfl
    simp only [BlockInv, he, hs', if_false, blockMarks_append, hm, countPrologues_append,
      countEpilogues_append, hp, hq]
    refine ⟨blockMarks_push _ false h1 (by simp [h2]), ?_, by omega⟩
    rw [List.length_append, List.length_singleton]; omega
  · simp only [hs, if_true] at h2 h3
    have hm : blockMarks [Emit.epilogue, Emit.text r] = [false] := rfl
    have hp : countPrologues [Emit.epilogue, Emit.text r] = 0 := rfl
    have hq : countEpilogues [Emit.epilogue, Emit.text r] = 1 := rfl
    simp only [BlockInv, he, hs', if_false, blockMarks_append, hm, countPrologues_append,
      countEpilogues_append, hp, hq]
    refine ⟨blockMarks_push _ false h1 (by simp [h2]), ?_, by omega⟩
    rw [List.length_append, List.length_singleton]; omega
  · simp only [hs, if_true] at h2 h3
    simp only [BlockInv, he, hs', if_true, blockMarks_append, hmarks, List.append_nil,
      countPrologues_append, countEpilogues_append, hpt, het]
    exact ⟨h1, h2, by omega⟩

theorem tracedLoop_BlockInv (lexer token : Str) (xs : List Str) (i : Nat) (t t' : Traced)
    (hinv : BlockInv t) (h : tracedLoop lexer token i xs t = .ok t') : BlockInv t' := by
  induction xs generalizing i t with
  | nil =>
    simp only [tracedLoop, Except.ok.injEq] at h
    rw [← h]; exact hinv
  | cons x xs ih =>
    simp only [tracedLoop] at h
    cases hstep : tracedStep lexer token i x t with
    | error e => rw [hstep] at h; simp at h
    | ok t1 =>
      rw [hstep] at h
      exact ih (i + 1) t1 (tracedStep_BlockInv lexer token x i t t1 hinv hstep) h

/-! ## Claims on `detectAnchor` -/

/-- C8: `detectAnchor` on the three forms built from a token returns the
start-anchor if it occurs anywhere in the line; otherwise the end-anchor if it
occurs; otherwise the bare anchor if it occurs; otherwise the empty string.
The positions of the occurrences play no part: a line `u ++ start ++ v` is
matched as start-anchor and never as bare anchor, whatever `u` and `v` hold.
(Holds for every token; non-emptiness of the token is not needed.) -/
theorem detectAnchor_priority (token line : Str) :
    (startAnchor token <:+: line →
      (detectAnchor line (anchors token)).1 = startAnchor token) ∧
    (¬ startAnchor token <:+: line → endAnchor token <:+: line →
      (detectAnchor line (anchors token)).1 = endAnchor token) ∧
    (¬ startAnchor token <:+: line → ¬ endAnchor token <:+: line → literateAnchor token <:+: line →
      (detectAnchor line (anchors token)).1 = literateAnchor token) ∧
    (¬ startAnchor token <:+: line → ¬ endAnchor token <:+: line → ¬ literateAnchor token <:+: line →
      (detectAnchor line (anchors token)).1 = []) ∧
    (∀ u v : Str,
      (detectAnchor (u ++ startAnchor token ++ v) (anchors token)).1 = startAnchor token ∧
      (detectAnchor (u ++ startAnchor token ++ v) (anchors token)).1 ≠ literateAnchor token) := by
  have hit : ∀ (l a : Str) (as : List Str), a <:+: l → (detectAnchor l (a :: as)).1 = a :=
    detectAnchor_fst_of_infix
  have skip : ∀ (l a : Str) (as : List Str), ¬ a <:+: l →
      detectAnchor l (a :: as) = detectAnchor l as := fun l a as h =>
    detectAnchor_skip l a as ((Index_eq_neg_one_iff l a).mpr h)
  refine ⟨?_, ?_, ?_, ?_, ?_⟩
  · exact fun h => hit line _ _ h
  · intro hs he
    rw [anchors, skip line _ _ hs]
    exact hit line _ _ he
  · intro hs he hb
    rw [anchors, skip line _ _ hs, skip line _ _ he]
    exact hit line _ _ hb
  · intro hs he hb
    rw [anchors, skip line _ _ hs, skip line _ _ he, skip line _ _ hb]
    rfl
  · intro u v
    have h : (detectAnchor (u ++ startAnchor token ++ v) (anchors token)).1 = startAnchor token :=
      hit _ _ _ ⟨u, v, rfl⟩
    exact ⟨h, by rw [h]; exact startAnchor_ne_literateAnchor token⟩

theorem detectAnchor_priority_witness :
    (detectAnchor "X END X START extra".toList (anchors "X".toList)).1 = "X START".toList ∧
    (detectAnchor "a X b X END".toList (anchors "X".toList)).1 = "X END".toList ∧
    (detectAnchor "a X b".toList (anchors "X".toList)).1 = "X".toList ∧
    (detectAnchor "a b".toList (anchors "X".toList)).1 = [] :=
  ⟨(detectAnchor_priority "X".toList "X END X START extra".toList).1 (by decide),
   (detectAnchor_priority "X".toList "a X b X END".toList).2.1 (by decide) (by decide),
   (detectAnchor_priority "X".toList "a X b".toList).2.2.1 (by decide) (by decide) (by decide),
   (detectAnchor_priority "X".toList "a b".toList).2.2.2.1 (by decide) (by decide) (by decide)⟩

/-- C9: when no anchor of the list occurs in the line, `detectAnchor` returns
the empty string and index `-1`; when one occurs, the returned anchor `a` is a
member of the list, and the returned index is `p + len(a)` with `p` the
position of the first occurrence of `a` in the line, plus one exactly when the
byte at position `p + len(a)` exists and is a space. -/
theorem detectAnchor_index (line : Str) (as : List Str) :
    ((∀ a ∈ as, ¬ a <:+: line) → detectAnchor line as = ([], -1)) ∧
    ((∃ a ∈ as, a <:+: line) →
      ∃ p : Nat,
        (detectAnchor line as).1 ∈ as ∧
        firstOccurrence line (detectAnchor line as).1 p ∧
        (detectAnchor line as).2
          = ((p + (detectAnchor line as).1.length : Nat) : Int)
            + (if line.get? (p + (detectAnchor line as).1.length) = some ' ' then 1 else 0)) := by
  constructor
  · intro h
    exact detectAnchor_none line as (fun a ha => (Index_eq_neg_one_iff line a).mpr (h a ha))
  · rintro ⟨a, ha, hin⟩
    obtain ⟨pre, post, b, p, has, _, hocc, hd⟩ :=
      detectAnchor_some line as ⟨a, ha, fun he => (Index_eq_neg_one_iff line a).mp he hin⟩
    refine ⟨p, ?_, ?_, ?_⟩
    · rw [hd, has]; simp
    · rw [hd]; exact hocc
    · rw [hd]
      simp only
      split <;> simp

theorem detectAnchor_index_witness :
    detectAnchor "code".toList (anchors "//".toList) = ([], -1) ∧
    ∃ p : Nat,
      (detectAnchor "x // hello".toList (anchors "//".toList)).1 ∈ anchors "//".toList ∧
      firstOccurrence "x // hello".toList (detectAnchor "x // hello".toList (anchors "//".toList)).1 p ∧
      (detectAnchor "x // hello".toList (anchors "//".toList)).2
        = ((p + (detectAnchor "x // hello".toList (anchors "//".toList)).1.length : Nat) : Int)
          + (if ("x // hello".toList).get?
                (p + (detectAnchor "x // hello".toList (anchors "//".toList)).1.length) = some ' '
             then 1 else 0) :=
  ⟨(detectAnchor_index "code".toList (anchors "//".toList)).1 (by decide),
   (detectAnchor_index "x // hello".toList (anchors "//".toList)).2
     ⟨"//".toList, by decide, by decide⟩⟩

/-! ## Claims on the transducer -/

/-- C1 (as stated): with anchor `//` and lexer `go`, the input
`a`, `// START`, `// hello`, `code1`, `code2`, `// END`, `b` would give the
prologue `linenostart=1`.  The run does not give that output. -/
theorem scenario_linenostart_one_refuted :
    literateLines "go".toList "//".toList
      ["a".toList, "// START".toList, "// hello".toList, "code1".toList, "code2".toList,
       "// END".toList, "b".toList]
    ≠ .ok ["hello".toList, [],
        "\x7b\x7b< highlight go \"linenos=table,linenostart=1\" >\x7d\x7d".toList,
        "code1".toList, "code2".toList, "\x7b\x7b< / highlight >\x7d\x7d".toList] := by
  decide

/-- C1 (amended): with anchor `//` and lexer `go`, the run on the input
`a`, `// START`, `// hello`, `code1`, `code2`, `// END`, `b` succeeds, and
its output is `hello`, the empty line, the prologue for `go` with
`linenostart=2`, `code1`, `code2`, the epilogue: the discarded line `a` has
advanced `lineno` to 2 before the block. -/
theorem scenario_output :
    literateLines "go".toList "//".toList
      ["a".toList, "// START".toList, "// hello".toList, "code1".toList, "code2".toList,
       "// END".toList, "b".toList]
    = .ok ["hello".toList, [],
        "\x7b\x7b< highlight go \"linenos=table,linenostart=2\" >\x7d\x7d".toList,
        "code1".toList, "code2".toList, "\x7b\x7b< / highlight >\x7d\x7d".toList] := by
  decide

/-- C2: after any prefix `0 .. i-1` processed without failure, `lineno` is 1
plus the number of anchor-free lines of the prefix; an iteration advances
`lineno` by one exactly on an anchor-free line, in every state; and the
prologue appended while processing line `i` (state `Literate`, anchor-free
line: the only place a prologue is appended) is
`fmtCodeBlockPrologue lexer n` with `n` that number.  Every other successful
iteration appends only the raw line, the text past the anchor or the
epilogue.  (Holds for every token, empty or not.) -/
theorem prologue_lineno (lexer token : Str) (lines : List Str) (i : Nat)
    (hi : i < lines.length) (s : Loop) (hs : afterPrefix lexer token lines i = .ok s) :
    s.lineno = 1 + countAnchorFree token (lines.take i) ∧
    (∀ s', literateStep lexer token i lines[i] s = .ok s' →
      s'.lineno = s.lineno + (if anchorFree token lines[i] then 1 else 0)) ∧
    (s.state = .Literate → anchorFree token lines[i] →
      literateStep lexer token i lines[i] s = .ok
        { state := .Code, lineno := s.lineno + 1,
          outputBuffer := s.outputBuffer ++
            [[], fmtCodeBlockPrologue lexer (1 + countAnchorFree token (lines.take i)),
             lines[i]] }) ∧
    (¬ (s.state = .Literate ∧ anchorFree token lines[i]) →
      ∀ s', literateStep lexer token i lines[i] s = .ok s' →
        ∃ extra, s'.outputBuffer = s.outputBuffer ++ extra ∧
          ∀ x ∈ extra, x = lines[i] ∨ x = codeBlockEpilogue ∨
            x = lines[i].drop (detectAnchor lines[i] (anchors token)).2.toNat) := by
  have hl := afterPrefix_lineno lexer token lines i (by omega) s hs
  refine ⟨hl, ?_, ?_, ?_⟩
  · intro s' h
    exact (literateStep_ok_shape lexer token lines[i] i s s' h).1
  · intro hst hfree
    rw [literateStep_anchorFree lexer i s hfree, hst, ← hl]
  · intro hno s' h
    rcases (literateStep_ok_shape lexer token lines[i] i s s' h).2 with h1 | h2
    · exact absurd ⟨h1.1, h1.2.1⟩ hno
    · exact h2.2

theorem prologue_lineno_witness :
    (1 : Nat) + 1 = 1 + countAnchorFree "//".toList
      (["a".toList, "// START".toList, "// hello".toList, "code1".toList].take 3) ∧
    literateStep "go".toList "//".toList 3 "code1".toList
        { state := .Literate, lineno := 2, outputBuffer := ["hello".toList] }
      = .ok { state := .Code, lineno := 2 + 1,
              outputBuffer := ["hello".toList] ++
                [[], fmtCodeBlockPrologue "go".toList
                  (1 + countAnchorFree "//".toList
                    (["a".toList, "// START".toList, "// hello".toList, "code1".toList].take 3)),
                 "code1".toList] } :=
  have h := prologue_lineno "go".toList "//".toList
    ["a".toList, "// START".toList, "// hello".toList, "code1".toList] 3 (by decide)
    { state := .Literate, lineno := 2, outputBuffer := ["hello".toList] } (by decide)
  ⟨h.1, h.2.2.1 rfl (by decide)⟩

/-- C3 (as stated): the prologue of a single well-formed block would carry
the 1-based line number of `codeline1` in the file.  For anchor `//`, lexer
`go` and the input `// START`, `// hello`, `code1`, `code2`, `// END`, whose
lines have the required forms and whose `code1` is at index 2 (line 3), the
output is not the one with `fmtCodeBlockPrologue lexer 3`. -/
theorem single_block_physical_line_refuted :
    (detectAnchor "// START".toList (anchors "//".toList)).1 = startAnchor "//".toList ∧
    detectAnchor "// hello".toList (anchors "//".toList) = (literateAnchor "//".toList, 3) ∧
    anchorFree "//".toList "code1".toList ∧ anchorFree "//".toList "code2".toList ∧
    (detectAnchor "// END".toList (anchors "//".toList)).1 = endAnchor "//".toList ∧
    ["// START".toList, "// hello".toList, "code1".toList, "code2".toList,
      "// END".toList].get? 2 = some "code1".toList ∧
    literateLines "go".toList "//".toList
      ([] ++ ["// START".toList, "// hello".toList, "code1".toList, "code2".toList,
        "// END".toList] ++ [])
    ≠ .ok ["// hello".toList.drop 3, [], fmtCodeBlockPrologue "go".toList (2 + 1),
        "code1".toList, "code2".toList, codeBlockEpilogue] := by
  decide

/-- C3 (amended): for every token and lexer, and every input made of
anchor-free lines `pre`, then a start-anchor line, one bare-anchor prose line,
two anchor-free lines `codeline1` and `codeline2`, an end-anchor line, then
anchor-free lines `post`, the run succeeds with output exactly the text of the
prose line past its anchor, the empty line,
`fmtCodeBlockPrologue lexer N`, `codeline1`, `codeline2`, `codeBlockEpilogue`,
where `N` is 1 plus the number of lines of `pre`: the number `codeline1` has
when only anchor-free lines are counted. -/
theorem single_block_output (lexer token : Str) (pre post : List Str)
    (startLine proseLine codeline1 codeline2 endLine : Str) (k : Int)
    (hpre : ∀ l ∈ pre, anchorFree token l)
    (hstart : (detectAnchor startLine (anchors token)).1 = startAnchor token)
    (hprose : detectAnchor proseLine (anchors token) = (literateAnchor token, k))
    (hc1 : anchorFree token codeline1) (hc2 : anchorFree token codeline2)
    (hend : (detectAnchor endLine (anchors token)).1 = endAnchor token)
    (hpost : ∀ l ∈ post, anchorFree token l) :
    literateLines lexer token
      (pre ++ [startLine, proseLine, codeline1, codeline2, endLine] ++ post)
    = .ok [proseLine.drop k.toNat, [], fmtCodeBlockPrologue lexer (pre.length + 1),
        codeline1, codeline2, codeBlockEpilogue] := by
  have hp1 : (detectAnchor proseLine (anchors token)).1 = literateAnchor token := by rw [hprose]
  have hp2 : (detectAnchor proseLine (anchors token)).2 = k := by rw [hprose]
  have e0 : literateLoop lexer token 0 pre initLoop
      = .ok { state := .Free, lineno := 1 + pre.length, outputBuffer := [] } := by
    rw [literateLoop_free_anchorFree lexer token pre 0 initLoop rfl hpre]; rfl
  have e1 : ∀ i n, literateStep lexer token i startLine
        { state := .Free, lineno := n, outputBuffer := [] }
      = .ok { state := .Literate, lineno := n, outputBuffer := [] } := by
    intro i n; rw [literateStep_start lexer _ _ hstart]
  have e2 : ∀ i n, literateStep lexer token i proseLine
        { state := .Literate, lineno := n, outputBuffer := [] }
      = .ok { state := .Literate, lineno := n, outputBuffer := [proseLine.drop k.toNat] } := by
    intro i n; rw [literateStep_literate lexer _ _ hp1, hp2]; rfl
  have e3 : ∀ i n, literateStep lexer token i codeline1
        { state := .Literate, lineno := n, outputBuffer := [proseLine.drop k.toNat] }
      = .ok { state := .Code, lineno := n + 1,
              outputBuffer := [proseLine.drop k.toNat, [], fmtCodeBlockPrologue lexer n,
                codeline1] } := by
    intro i n; rw [literateStep_anchorFree lexer _ _ hc1]; rfl
  have e4 : ∀ i n, literateStep lexer token i codeline2
        { state := .Code, lineno := n + 1,
          outputBuffer := [proseLine.drop k.toNat, [], fmtCodeBlockPrologue lexer n, codeline1] }
      = .ok { state := .Code, lineno := n + 1 + 1,
              outputBuffer := [proseLine.drop k.toNat, [], fmtCodeBlockPrologue lexer n,
                codeline1, codeline2] } := by
    intro i n; rw [literateStep_anchorFree lexer _ _ hc2]; rfl
  have e5 : ∀ i n, literateStep lexer token i endLine
        { state := .Code, lineno := n + 1 + 1,
          outputBuffer := [proseLine.drop k.toNat, [], fmtCodeBlockPrologue lexer n,
            codeline1, codeline2] }
      = .ok { state := .Free, lineno := n + 1 + 1,
              outputBuffer := [proseLine.drop k.toNat, [], fmtCodeBlockPrologue lexer n,
                codeline1, codeline2, codeBlockEpilogue] } := by
    intro i n; rw [literateStep_end lexer _ _ hend]; rfl
  have h1 : 1 + pre.length = pre.length + 1 := by omega
  rw [literateLines, List.append_assoc, literateLoop_append, e0]
  simp only [List.cons_append, List.nil_append, literateLoop, e1, e2, e3, e4, e5]
  have hnil : ([] : List Str).append post = post := rfl
  rw [hnil, literateLoop_free_anchorFree lexer token post _ _ rfl hpost, h1]

theorem single_block_output_witness :
    literateLines "go".toList "//".toList
      (["a".toList] ++ ["// START".toList, "// hello".toList, "code1".toList, "code2".toList,
        "// END".toList] ++ ["b".toList])
    = .ok ["// hello".toList.drop (3 : Int).toNat, [],
        fmtCodeBlockPrologue "go".toList (["a".toList].length + 1),
        "code1".toList, "code2".toList, codeBlockEpilogue] :=
  single_block_output "go".toList "//".toList ["a".toList] ["b".toList]
    "// START".toList "// hello".toList "code1".toList "code2".toList "// END".toList 3
    (by decide) (by decide) (by decide) (by decide) (by decide) (by decide) (by decide)

/-- C4: for every input in which no line contains the anchor token as a
substring, every prefix of the run ends without failure in state `Free` with
an empty output and `lineno` equal to 1 plus the number of lines processed;
so the run succeeds with an empty output and final `lineno` 1 plus the number
of input lines.  (A non-empty token is not needed as an assumption: an empty
token is contained in every line.) -/
theorem anchor_free_input (lexer token : Str) (lines : List Str)
    (h : ∀ l ∈ lines, ¬ token <:+: l) :
    literateLines lexer token lines = .ok [] ∧
    (∀ i ≤ lines.length, afterPrefix lexer token lines i
        = .ok { state := .Free, lineno := 1 + i, outputBuffer := [] }) ∧
    literateLoop lexer token 0 lines initLoop
      = .ok { state := .Free, lineno := 1 + lines.length, outputBuffer := [] } := by
  have hfree : ∀ l ∈ lines, anchorFree token l :=
    fun l hl => (anchorFree_iff token l).mpr (h l hl)
  have hrun : ∀ xs : List Str, (∀ l ∈ xs, anchorFree token l) →
      literateLoop lexer token 0 xs initLoop
        = .ok { state := .Free, lineno := 1 + xs.length, outputBuffer := [] } := by
    intro xs hxs
    rw [literateLoop_free_anchorFree lexer token xs 0 initLoop rfl hxs]
    rfl
  refine ⟨by rw [literateLines, hrun lines hfree], ?_, hrun lines hfree⟩
  intro i hi
  rw [afterPrefix, hrun (lines.take i) (fun l hl => hfree l (List.mem_of_mem_take hl)),
    List.length_take, Nat.min_eq_left hi]

theorem anchor_free_input_witness :
    literateLines "go".toList "//".toList ["a".toList, "b".toList] = .ok [] ∧
    (∀ i ≤ ["a".toList, "b".toList].length,
      afterPrefix "go".toList "//".toList ["a".toList, "b".toList] i
        = .ok { state := .Free, lineno := 1 + i, outputBuffer := [] }) ∧
    literateLoop "go".toList "//".toList 0 ["a".toList, "b".toList] initLoop
      = .ok { state := .Free, lineno := 1 + ["a".toList, "b".toList].length,
              outputBuffer := [] } :=
  anchor_free_input "go".toList "//".toList ["a".toList, "b".toList] (by decide)

/-- C5: if the lines of index `0 .. i-1` are processed without failure and
leave the state `Literate` or `Code`, and `detectAnchor` on line `i` reports
the start-anchor, then the whole run returns the error made by `wrapErr` for
index `i`, whose text begins `line <i+1>: `, and it yields no output line
sequence. -/
theorem start_anchor_inside_block_fails (lexer token : Str) (lines : List Str) (i : Nat)
    (hi : i < lines.length) (s : Loop)
    (hs : afterPrefix lexer token lines i = .ok s)
    (hstate : s.state = .Literate ∨ s.state = .Code)
    (hd : (detectAnchor lines[i] (anchors token)).1 = startAnchor token) :
    literateLines lexer token lines
      = .error (.error ("line ".toList ++ Nat.toDigits 10 (i + 1) ++ ": ".toList
          ++ fmt.Sprintf (if s.state = .Literate then msgLiterate else msgCode)
              [.slice [startAnchor token]])) ∧
    ∀ out, literateLines lexer token lines ≠ .ok out := by
  have hrun : literateLines lexer token lines
      = .error (.error (wrapErr i (if s.state = .Literate then msgLiterate else msgCode)
          [startAnchor token])) := by
    apply literateLines_error_at lexer token lines i hi s _ hs
    rw [literateStep_start lexer i s hd]
    rcases hstate with h | h <;> simp [h]
  rw [wrapErr_text] at hrun
  refine ⟨hrun, ?_⟩
  intro out hout
  rw [hrun] at hout
  exact absurd hout (by simp)

theorem start_anchor_inside_block_fails_witness :
    literateLines "go".toList "//".toList
        ["// START".toList, "code".toList, "x // START y".toList, "z".toList]
      = .error (.error ("line ".toList ++ Nat.toDigits 10 (2 + 1) ++ ": ".toList
          ++ fmt.Sprintf
              (if ({ state := .Code, lineno := 2,
                     outputBuffer := [[], fmtCodeBlockPrologue "go".toList 1, "code".toList] }
                    : Loop).state = .Literate
               then msgLiterate else msgCode)
              [.slice [startAnchor "//".toList]])) ∧
    ∀ out, literateLines "go".toList "//".toList
        ["// START".toList, "code".toList, "x // START y".toList, "z".toList] ≠ .ok out :=
  start_anchor_inside_block_fails "go".toList "//".toList
    ["// START".toList, "code".toList, "x // START y".toList, "z".toList] 2 (by decide)
    { state := .Code, lineno := 2,
      outputBuffer := [[], fmtCodeBlockPrologue "go".toList 1, "code".toList] }
    (by decide) (Or.inr rfl) (by decide)

/-- C6: if the lines of index `0 .. i-1` are processed without failure and
leave the state `Free`, and `detectAnchor` on line `i` reports the bare
anchor or the end-anchor, then the whole run returns the
`outside of literate block` error made by `wrapErr` for index `i`, whose text
begins `line <i+1>: `.  In particular, when no line before line `i` contains
the start-anchor and line `i` contains the token but not the start-anchor,
the run fails with that kind of error, at line `i+1` or before. -/
theorem anchor_outside_block_fails (lexer token : Str) (lines : List Str) (i : Nat)
    (hi : i < lines.length) :
    (∀ s, afterPrefix lexer token lines i = .ok s → s.state = .Free →
      ((detectAnchor lines[i] (anchors token)).1 = literateAnchor token ∨
       (detectAnchor lines[i] (anchors token)).1 = endAnchor token) →
      literateLines lexer token lines
        = .error (.error ("line ".toList ++ Nat.toDigits 10 (i + 1) ++ ": ".toList
            ++ fmt.Sprintf msgOutside [.slice [(detectAnchor lines[i] (anchors token)).1]]))) ∧
    ((∀ l ∈ lines.take i, ¬ startAnchor token <:+: l) →
      token <:+: lines[i] → ¬ startAnchor token <:+: lines[i] →
      ∃ j, j ≤ i ∧ ∃ a, literateLines lexer token lines
        = .error (.error ("line ".toList ++ Nat.toDigits 10 (j + 1) ++ ": ".toList
            ++ fmt.Sprintf msgOutside [.slice [a]]))) := by
  constructor
  · intro s hs hst hd
    rw [← wrapErr_text]
    apply literateLines_error_at lexer token lines i hi s _ hs
    rcases hd with h | h
    · rw [literateStep_literate lexer i s h, hst, h]
    · rw [literateStep_end lexer i s h, hst, h]
  · intro hbefore htok hnostart
    rcases afterPrefix_before_first_start lexer token lines i (by omega) hbefore with
      ⟨s, hs, hst⟩ | ⟨j, hj, a, he⟩
    · rcases literateStep_free_no_start lexer token lines[i] i s hst hnostart with
        ⟨hfree, _⟩ | ⟨_, herr⟩
      · exact absurd htok ((anchorFree_iff token lines[i]).mp hfree)
      · exact ⟨i, le_refl i, _, by
          rw [← wrapErr_text]; exact literateLines_error_at lexer token lines i hi s _ hs herr⟩
    · exact ⟨j, by omega, a, by
        rw [← wrapErr_text]; exact literateLines_error_of_prefix lexer token lines i _ he⟩

theorem anchor_outside_block_fails_witness :
    literateLines "go".toList "//".toList ["a".toList, "b // END".toList, "c".toList]
      = .error (.error ("line ".toList ++ Nat.toDigits 10 (1 + 1) ++ ": ".toList
          ++ fmt.Sprintf msgOutside
              [.slice [(detectAnchor "b // END".toList (anchors "//".toList)).1]])) ∧
    ∃ j, j ≤ 1 ∧ ∃ a,
      literateLines "go".toList "//".toList ["a".toList, "// note".toList, "c".toList]
        = .error (.error ("line ".toList ++ Nat.toDigits 10 (j + 1) ++ ": ".toList
            ++ fmt.Sprintf msgOutside [.slice [a]])) :=
  ⟨(anchor_outside_block_fails "go".toList "//".toList
      ["a".toList, "b // END".toList, "c".toList] 1 (by decide)).1
      { state := .Free, lineno := 2, outputBuffer := [] } (by decide) rfl (Or.inr (by decide)),
   (anchor_outside_block_fails "go".toList "//".toList
      ["a".toList, "// note".toList, "c".toList] 1 (by decide)).2
      (by decide) (by decide) (by decide)⟩

/-- C7: in state `Code`, when `detectAnchor` on the line reports the bare
anchor with index `k`, the iteration appends exactly two lines to the output,
first `codeBlockEpilogue` and then the suffix of the line from `k`, sets the
state to `Literate` and leaves `lineno` unchanged; `k` is a valid slice
bound of the line. -/
theorem bare_anchor_in_code (lexer token : Str) (i : Nat) (line : Str) (s : Loop) (k : Int)
    (hs : s.state = .Code)
    (hd : detectAnchor line (anchors token) = (literateAnchor token, k)) :
    literateStep lexer token i line s
      = .ok { state := .Literate, lineno := s.lineno,
              outputBuffer := s.outputBuffer ++ [codeBlockEpilogue, line.drop k.toNat] } ∧
    linePastAnchor line k = some (line.drop k.toNat) ∧
    0 ≤ k ∧ k ≤ line.length := by
  have h1 : (detectAnchor line (anchors token)).1 = literateAnchor token := by rw [hd]
  have h2 : (detectAnchor line (anchors token)).2 = k := by rw [hd]
  have hb := detectAnchor_literate_bounds h1
  rw [h2] at hb
  refine ⟨?_, linePastAnchor_of_bounds line k hb.1 hb.2, hb.1, hb.2⟩
  rw [literateStep_literate lexer i s h1, hs, h2]

theorem bare_anchor_in_code_witness :
    literateStep "go".toList "//".toList 3 "x // more prose".toList
        { state := .Code, lineno := 2, outputBuffer := ["code".toList] }
      = .ok { state := .Literate, lineno := 2,
              outputBuffer := ["code".toList]
                ++ [codeBlockEpilogue, "x // more prose".toList.drop (5 : Int).toNat] } ∧
    linePastAnchor "x // more prose".toList 5
      = some ("x // more prose".toList.drop (5 : Int).toNat) ∧
    (0 : Int) ≤ 5 ∧ (5 : Int) ≤ "x // more prose".toList.length :=
  bare_anchor_in_code "go".toList "//".toList 3 "x // more prose".toList
    { state := .Code, lineno := 2, outputBuffer := ["code".toList] } 5 rfl (by decide)

/-- C10: for every input in which no line meets an error cell of the
transition table, the loop ends without failure in some final state `s`,
whatever it is, and the run succeeds with exactly `s.outputBuffer`, the
output appended by the iterations: nothing is added at end of input.  So a
start-anchor line followed by one anchor-free line `c` ends in state `Code`
and succeeds with the empty line, the prologue and `c`, without epilogue. -/
theorem unterminated_block_succeeds (lexer token : Str) :
    (∀ lines : List Str,
      (∀ i (hi : i < lines.length) s, afterPrefix lexer token lines i = .ok s →
        ¬ invalidTransition token s.state (detectAnchor lines[i] (anchors token)).1) →
      ∃ s, literateLoop lexer token 0 lines initLoop = .ok s ∧
        literateLines lexer token lines = .ok s.outputBuffer) ∧
    (∀ c : Str, anchorFree token c →
      literateLoop lexer token 0 [startAnchor token, c] initLoop
        = .ok { state := .Code, lineno := 2,
                outputBuffer := [[], fmtCodeBlockPrologue lexer 1, c] } ∧
      literateLines lexer token [startAnchor token, c]
        = .ok [[], fmtCodeBlockPrologue lexer 1, c]) := by
  constructor
  · intro lines h
    obtain ⟨s, hs⟩ := afterPrefix_ok_of_valid lexer token lines h lines.length (le_refl _)
    rw [afterPrefix_all] at hs
    exact ⟨s, hs, by rw [literateLines, hs]⟩
  · intro c hc
    have hstart : (detectAnchor (startAnchor token) (anchors token)).1 = startAnchor token :=
      detectAnchor_fst_of_infix _ _ _ (List.infix_refl _)
    have hloop : literateLoop lexer token 0 [startAnchor token, c] initLoop
        = .ok { state := .Code, lineno := 2,
                outputBuffer := [[], fmtCodeBlockPrologue lexer 1, c] } := by
      simp only [literateLoop, literateStep_start lexer _ _ hstart,
        literateStep_anchorFree lexer _ _ hc, initLoop]
      rfl
    exact ⟨hloop, by rw [literateLines, hloop]⟩

theorem unterminated_block_succeeds_witness :
    (∃ s, literateLoop "go".toList "//".toList 0
          ["// START".toList, "// prose".toList] initLoop = .ok s ∧
        literateLines "go".toList "//".toList ["// START".toList, "// prose".toList]
          = .ok s.outputBuffer) ∧
    (literateLoop "go".toList "//".toList 0 [startAnchor "//".toList, "code".toList] initLoop
        = .ok { state := .Code, lineno := 2,
                outputBuffer := [[], fmtCodeBlockPrologue "go".toList 1, "code".toList] } ∧
      literateLines "go".toList "//".toList [startAnchor "//".toList, "code".toList]
        = .ok [[], fmtCodeBlockPrologue "go".toList 1, "code".toList]) :=
  ⟨(unterminated_block_succeeds "go".toList "//".toList).1
      ["// START".toList, "// prose".toList]
      (by
        intro i hi s hs
        have hi2 : i < 2 := hi
        interval_cases i
        · have : s = initLoop := by
            have h0 : afterPrefix "go".toList "//".toList
                ["// START".toList, "// prose".toList] 0 = .ok initLoop := rfl
            rw [h0] at hs
            exact (Except.ok.inj hs).symm
          subst this
          show ¬ invalidTransition "//".toList .Free
            (detectAnchor "// START".toList (anchors "//".toList)).1
          decide
        · have : s = { state := .Literate, lineno := 1, outputBuffer := [] } := by
            have h1 : afterPrefix "go".toList "//".toList
                ["// START".toList, "// prose".toList] 1
                = .ok { state := .Literate, lineno := 1, outputBuffer := [] } := by decide
            rw [h1] at hs
            exact (Except.ok.inj hs).symm
          subst this
          show ¬ invalidTransition "//".toList .Literate
            (detectAnchor "// prose".toList (anchors "//".toList)).1
          decide),
   (unterminated_block_succeeds "go".toList "//".toList).2 "code".toList (by decide)⟩

/-- C11 (evaluation at the failing input): with anchor `//` and lexer `go`,
`detectAnchor` finds the start-anchor in `// START intro` and the end-anchor in
`// END outro`, each with the index of the text that follows, yet the run on
these two lines succeeds with an empty output: the text after the anchor and
its modifier is not included. -/
theorem modifier_line_rest_dropped :
    detectAnchor "// START intro".toList (anchors "//".toList) = ("// START".toList, 9) ∧
    detectAnchor "// END outro".toList (anchors "//".toList) = ("// END".toList, 7) ∧
    literateLines "go".toList "//".toList ["// START intro".toList, "// END outro".toList]
      = .ok [] := by
  decide

/-- C12: for every line and every index `k` with `0 ≤ k ≤ len(line)`,
`linePastAnchor line k` returns the suffix of the line from `k`: the first `k`
bytes of the line followed by the result are the line; for `k = len(line)` the
result is the empty string; the slice is never out of bounds. -/
theorem linePastAnchor_suffix (line : Str) (k : Int) (h0 : 0 ≤ k) (h1 : k ≤ line.length) :
    ∃ rest, linePastAnchor line k = some rest ∧
      rest = line.drop k.toNat ∧
      line.take k.toNat ++ rest = line ∧
      (k = line.length → rest = []) := by
  refine ⟨line.drop k.toNat, linePastAnchor_of_bounds line k h0 h1, rfl,
    List.take_append_drop _ _, ?_⟩
  intro hk
  have : k.toNat = line.length := by omega
  rw [this, List.drop_length]

theorem linePastAnchor_suffix_witness :
    ∃ rest, linePastAnchor "// hello".toList 3 = some rest ∧
      rest = "// hello".toList.drop (3 : Int).toNat ∧
      "// hello".toList.take (3 : Int).toNat ++ rest = "// hello".toList ∧
      ((3 : Int) = "// hello".toList.length → rest = []) :=
  linePastAnchor_suffix "// hello".toList 3 (by decide) (by decide)

/-- C15 (evaluation at the failing input): with anchor `//`, the error texts
of the three kinds of invalid transition carry the anchor between square
brackets, `'[// END]'` and `'[// START]'`, since `wrapErr` hands its variadic
`args` to the inner `fmt.Errorf` as a single slice operand. -/
theorem error_text_bracketed :
    literateLines "go".toList "//".toList ["// END".toList]
      = .error (.error
          "line 1: unexpected anchor '[// END]' outside of literate block".toList) ∧
    literateLines "go".toList "//".toList ["// START".toList, "// START".toList]
      = .error (.error
          "line 2: unexpected anchor '[// START]' inside of literate block".toList) ∧
    literateLines "go".toList "//".toList ["// START".toList, "code".toList, "// START".toList]
      = .error (.error
          "line 3: unexpected anchor '[// START]' inside of code block".toList) ∧
    literateLines "go".toList "//".toList ["// END".toList]
      ≠ .error (.error
          "line 1: unexpected anchor '// END' outside of literate block".toList) := by
  decide

/-- C16: for every token, empty or not, `linePastAnchor` is only called with
an index `k` such that `0 ≤ k ≤ len(line)`: whenever the anchor returned by
`detectAnchor` is the bare anchor (the condition of both calls), the bare
anchor was matched in the line, the index is not `-1` and lies within the
line, and the slice is defined.  So no iteration and no run ever ends in a
slice-bounds failure. -/
theorem linePastAnchor_call_in_bounds (lexer token : Str) :
    (∀ line : Str, (detectAnchor line (anchors token)).1 = literateAnchor token →
      strings.Index line (literateAnchor token) ≠ -1 ∧
      (detectAnchor line (anchors token)).2 ≠ -1 ∧
      0 ≤ (detectAnchor line (anchors token)).2 ∧
      (detectAnchor line (anchors token)).2 ≤ line.length ∧
      linePastAnchor line (detectAnchor line (anchors token)).2
        = some (line.drop (detectAnchor line (anchors token)).2.toNat)) ∧
    (∀ (i : Nat) (line : Str) (s : Loop),
      literateStep lexer token i line s ≠ .error .sliceOutOfRange) ∧
    (∀ lines : List Str, literateLines lexer token lines ≠ .error .sliceOutOfRange) := by
  refine ⟨?_, ?_, ?_⟩
  · intro line h
    have hb := detectAnchor_literate_bounds h
    exact ⟨detectAnchor_literate_matched h, by omega, hb.1, hb.2,
      linePastAnchor_of_bounds line _ hb.1 hb.2⟩
  · intro i line s
    exact literateStep_ne_sliceOutOfRange lexer token line i s
  · intro lines h
    rw [literateLines] at h
    cases hl : literateLoop lexer token 0 lines initLoop with
    | error e =>
      rw [hl] at h
      simp only [Except.error.injEq] at h
      exact literateLoop_ne_sliceOutOfRange lexer token lines 0 initLoop (by rw [hl, h])
    | ok s => rw [hl] at h; simp at h

theorem linePastAnchor_call_in_bounds_witness :
    strings.Index "x".toList (literateAnchor []) ≠ -1 ∧
    (detectAnchor "x".toList (anchors [])).2 ≠ -1 ∧
    0 ≤ (detectAnchor "x".toList (anchors [])).2 ∧
    (detectAnchor "x".toList (anchors [])).2 ≤ "x".toList.length ∧
    linePastAnchor "x".toList (detectAnchor "x".toList (anchors [])).2
      = some ("x".toList.drop (detectAnchor "x".toList (anchors [])).2.toNat) :=
  (linePastAnchor_call_in_bounds "go".toList []).1 "x".toList (by decide)

/-- C13: the validation of `parseArgs` succeeds, returning the arguments, if
and only if `Lexer`, `Anchor` and `Filename` are all non-empty; when it fails
the error names the first missing input in the order lexer, anchor, filename.
So whenever `main` calls `literate`, it is with the arguments given and a
non-empty anchor token, which is the token passed to the transducer. -/
theorem parseArgs_required (args : Args) :
    (parseArgs args = .ok args ↔
      args.Lexer ≠ [] ∧ args.Anchor ≠ [] ∧ args.Filename ≠ []) ∧
    ((∃ a, parseArgs args = .ok a) ↔
      args.Lexer ≠ [] ∧ args.Anchor ≠ [] ∧ args.Filename ≠ []) ∧
    (args.Lexer = [] → parseArgs args = .error "--lexer is a required option".toList) ∧
    (args.Lexer ≠ [] → args.Anchor = [] →
      parseArgs args = .error "--anchor is a required option".toList) ∧
    (args.Lexer ≠ [] → args.Anchor ≠ [] → args.Filename = [] →
      parseArgs args = .error "<filename> is a required argument".toList) ∧
    (∀ (file : FileRead) (a : Args) (r : Except Failure (List Str)),
      main args file = .ran a r →
        a = args ∧ a.Anchor ≠ [] ∧ r = literate args file ∧
        ∀ bytes, file = .content bytes →
          r = literateLines args.Lexer args.Anchor (strings.Split bytes)) := by
  refine ⟨?_, ?_, ?_, ?_, ?_, ?_⟩
  · unfold parseArgs
    split_ifs <;> simp [*]
  · unfold parseArgs
    split_ifs <;> simp [*]
  · intro h1
    simp [parseArgs, h1]
  · intro h1 h2
    simp [parseArgs, h1, h2]
  · intro h1 h2 h3
    simp [parseArgs, h1, h2, h3]
  · intro file a r h
    unfold main parseArgs at h
    split_ifs at h with h1 h2 h3
    simp only [MainOutcome.ran.injEq] at h
    obtain ⟨rfl, rfl⟩ := h
    refine ⟨rfl, h2, rfl, ?_⟩
    rintro bytes rfl
    rfl

theorem parseArgs_required_witness :
    parseArgs { Lexer := "go".toList, Anchor := [], Filename := "main.go".toList }
      = .error "--anchor is a required option".toList ∧
    (({ Lexer := "go".toList, Anchor := "//".toList, Filename := "main.go".toList } : Args)
        = { Lexer := "go".toList, Anchor := "//".toList, Filename := "main.go".toList } ∧
      ({ Lexer := "go".toList, Anchor := "//".toList, Filename := "main.go".toList }
        : Args).Anchor ≠ [] ∧
      (literateLines "go".toList "//".toList ["// START".toList, "// hi".toList] : Except Failure (List Str))
        = literate { Lexer := "go".toList, Anchor := "//".toList, Filename := "main.go".toList }
            (.content "// START\n// hi".toList) ∧
      ∀ bytes, FileRead.content "// START\n// hi".toList = .content bytes →
        (literateLines "go".toList "//".toList ["// START".toList, "// hi".toList]
            : Except Failure (List Str))
          = literateLines "go".toList "//".toList (strings.Split bytes)) :=
  ⟨(parseArgs_required
      { Lexer := "go".toList, Anchor := [], Filename := "main.go".toList }).2.2.2.1
      (by decide) rfl,
   (parseArgs_required
      { Lexer := "go".toList, Anchor := "//".toList, Filename := "main.go".toList }).2.2.2.2.2
      (.content "// START\n// hi".toList)
      { Lexer := "go".toList, Anchor := "//".toList, Filename := "main.go".toList }
      (literateLines "go".toList "//".toList ["// START".toList, "// hi".toList])
      (by decide)⟩

/-- C14: for every token and lexer, and every input
`pre ++ [startLine] ++ prose ++ code ++ [endLine] ++ post` where the lines of
`pre`, `code` and `post` are anchor-free, `code` is not empty, `startLine` is
a start-anchor line, `endLine` an end-anchor line and every line of `prose`
has the bare anchor as its detected anchor, the run succeeds with output
exactly the text past the anchor of each prose line, in order, then the empty
line, `fmtCodeBlockPrologue lexer (len(pre) + 1)`, the lines of `code` and
`codeBlockEpilogue`; `pre` and `post` contribute nothing. -/
theorem block_output (lexer token : Str) (pre prose code post : List Str)
    (startLine endLine : Str)
    (hpre : ∀ l ∈ pre, anchorFree token l)
    (hstart : (detectAnchor startLine (anchors token)).1 = startAnchor token)
    (hprose : ∀ l ∈ prose, (detectAnchor l (anchors token)).1 = literateAnchor token)
    (hcode : ∀ l ∈ code, anchorFree token l) (hne : code ≠ [])
    (hend : (detectAnchor endLine (anchors token)).1 = endAnchor token)
    (hpost : ∀ l ∈ post, anchorFree token l) :
    literateLines lexer token (pre ++ [startLine] ++ prose ++ code ++ [endLine] ++ post)
    = .ok (prose.map (fun l => l.drop (detectAnchor l (anchors token)).2.toNat)
        ++ [[], fmtCodeBlockPrologue lexer (pre.length + 1)] ++ code
        ++ [codeBlockEpilogue]) := by
  obtain ⟨c, cs, rfl⟩ := List.exists_cons_of_ne_nil hne
  have hc : anchorFree token c := hcode c (by simp)
  have hcs : ∀ l ∈ cs, anchorFree token l := fun l hl => hcode l (by simp [hl])
  have h1 : 1 + pre.length = pre.length + 1 := by omega
  have hshape : pre ++ [startLine] ++ prose ++ (c :: cs) ++ [endLine] ++ post
      = pre ++ (startLine :: (prose ++ (c :: (cs ++ (endLine :: post))))) := by
    simp
  rw [literateLines, hshape, literateLoop_append,
    literateLoop_free_anchorFree lexer token pre 0 initLoop rfl hpre]
  simp only [literateLoop, literateStep_start lexer _ _ hstart, initLoop]
  rw [literateLoop_append, literateLoop_prose lexer token prose _ _ rfl hprose]
  simp only [literateLoop, literateStep_anchorFree lexer _ _ hc]
  rw [literateLoop_append, literateLoop_code lexer token cs _ _ rfl hcs]
  simp only [literateLoop, literateStep_end lexer _ _ hend]
  rw [literateLoop_free_anchorFree lexer token post _ _ rfl hpost]
  simp [h1]

theorem block_output_witness :
    literateLines "go".toList "//".toList
      (["a".toList] ++ ["// START".toList] ++ ["// one".toList, "x // two".toList]
        ++ ["code1".toList, "code2".toList, "code3".toList] ++ ["// END".toList]
        ++ ["b".toList])
    = .ok (["// one".toList, "x // two".toList].map
          (fun l => l.drop (detectAnchor l (anchors "//".toList)).2.toNat)
        ++ [[], fmtCodeBlockPrologue "go".toList (["a".toList].length + 1)]
        ++ ["code1".toList, "code2".toList, "code3".toList]
        ++ [codeBlockEpilogue]) :=
  block_output "go".toList "//".toList ["a".toList] ["// one".toList, "x // two".toList]
    ["code1".toList, "code2".toList, "code3".toList] ["b".toList]
    "// START".toList "// END".toList
    (by decide) (by decide) (by decide) (by decide) (by decide) (by decide) (by decide)

/-- C18: the transducer is prefix-monotone.  If the run on `xs ++ ys`
succeeds with output `o`, the run on `xs` succeeds and its output is a prefix
of `o`.  If the run on `xs` fails with `e`, the run on `xs ++ ys` fails with
the same `e`; and `e` is the error of the first failing iteration, on a line
of index `i` before which every iteration succeeded, with a text that begins
`line <i+1>: `. -/
theorem prefix_monotone (lexer token : Str) (xs ys : List Str) :
    (∀ o, literateLines lexer token (xs ++ ys) = .ok o →
      ∃ o', literateLines lexer token xs = .ok o' ∧ o' <+: o) ∧
    (∀ e, literateLines lexer token xs = .error e →
      literateLines lexer token (xs ++ ys) = .error e ∧
      ∃ i, ∃ hi : i < xs.length, ∃ s cause,
        afterPrefix lexer token xs i = .ok s ∧
        literateStep lexer token i xs[i] s = .error e ∧
        e = .error ("line ".toList ++ Nat.toDigits 10 (i + 1) ++ ": ".toList ++ cause)) := by
  constructor
  · intro o h
    rw [literateLines, literateLoop_append] at h
    cases hx : literateLoop lexer token 0 xs initLoop with
    | error e => simp [hx] at h
    | ok s1 =>
      simp only [hx] at h
      cases hy : literateLoop lexer token (0 + xs.length) ys s1 with
      | error e => rw [hy] at h; simp at h
      | ok s2 =>
        rw [hy] at h
        simp only [Except.ok.injEq] at h
        subst h
        exact ⟨s1.outputBuffer, by rw [literateLines, hx],
          literateLoop_output_extends lexer token ys _ s1 s2 hy⟩
  · intro e h
    have hx : literateLoop lexer token 0 xs initLoop = .error e := by
      rw [literateLines] at h
      cases hl : literateLoop lexer token 0 xs initLoop with
      | error e' => rw [hl] at h; simpa using h
      | ok s => rw [hl] at h; simp at h
    refine ⟨by rw [literateLines, literateLoop_append, hx], ?_⟩
    have hp : afterPrefix lexer token xs xs.length = .error e := by
      rw [afterPrefix_all]; exact hx
    obtain ⟨i, hi, s, hs, hstep⟩ :=
      afterPrefix_first_error lexer token xs xs.length (le_refl _) e hp
    obtain ⟨cause, hc⟩ := literateStep_error_text lexer token xs[i] i s e hstep
    exact ⟨i, hi, s, cause, hs, hstep, hc⟩

theorem prefix_monotone_witness :
    (∃ o', literateLines "go".toList "//".toList ["// START".toList, "// hi".toList] = .ok o' ∧
      o' <+: ["hi".toList, [], fmtCodeBlockPrologue "go".toList 1, "code".toList]) ∧
    (literateLines "go".toList "//".toList (["a".toList, "// END".toList] ++ ["b".toList])
        = .error (.error
            "line 2: unexpected anchor '[// END]' outside of literate block".toList) ∧
      ∃ i, ∃ hi : i < ["a".toList, "// END".toList].length, ∃ s cause,
        afterPrefix "go".toList "//".toList ["a".toList, "// END".toList] i = .ok s ∧
        literateStep "go".toList "//".toList i (["a".toList, "// END".toList][i]) s
          = .error (.error
              "line 2: unexpected anchor '[// END]' outside of literate block".toList) ∧
        Failure.error "line 2: unexpected anchor '[// END]' outside of literate block".toList
          = .error ("line ".toList ++ Nat.toDigits 10 (i + 1) ++ ": ".toList ++ cause)) :=
  ⟨(prefix_monotone "go".toList "//".toList ["// START".toList, "// hi".toList]
      ["code".toList]).1 _ (by decide),
   (prefix_monotone "go".toList "//".toList ["a".toList, "// END".toList]
      ["b".toList]).2 _ (by decide)⟩

/-- C19: when the lines of index `0 .. i-1` are processed without failure and
line `i` makes the run append a prologue (state `Literate`, anchor-free line),
the prologue is `fmtCodeBlockPrologue lexer n` with `1 ≤ n ≤ i`, so `n` is
strictly smaller than the physical line number `i + 1` of that line: state
`Literate` is reached only after an anchor line, which does not advance
`lineno`.  (Holds for every token.) -/
theorem linenostart_below_physical_line (lexer token : Str) (lines : List Str) (i : Nat)
    (hi : i < lines.length) (s : Loop)
    (hs : afterPrefix lexer token lines i = .ok s)
    (hst : s.state = .Literate) (hfree : anchorFree token lines[i]) :
    literateStep lexer token i lines[i] s
      = .ok { state := .Code, lineno := s.lineno + 1,
              outputBuffer := s.outputBuffer
                ++ [[], fmtCodeBlockPrologue lexer s.lineno, lines[i]] } ∧
    1 ≤ s.lineno ∧ s.lineno ≤ i ∧ s.lineno < i + 1 := by
  have hl := afterPrefix_lineno lexer token lines i (by omega) s hs
  have hlt := afterPrefix_count_lt lexer token lines i (by omega) s hs (by rw [hst]; simp)
  refine ⟨by rw [literateStep_anchorFree lexer i s hfree, hst], ?_, ?_, ?_⟩ <;> omega

theorem linenostart_below_physical_line_witness :
    literateStep "go".toList "//".toList 3 "code1".toList
        { state := .Literate, lineno := 2, outputBuffer := ["hello".toList] }
      = .ok { state := .Code, lineno := 2 + 1,
              outputBuffer := ["hello".toList]
                ++ [[], fmtCodeBlockPrologue "go".toList 2, "code1".toList] } ∧
    1 ≤ 2 ∧ 2 ≤ 3 ∧ 2 < 3 + 1 :=
  linenostart_below_physical_line "go".toList "//".toList
    ["a".toList, "// START".toList, "// hello".toList, "code1".toList] 3 (by decide)
    { state := .Literate, lineno := 2, outputBuffer := ["hello".toList] }
    (by decide) rfl (by decide)

/-- C17: after any prefix of the input processed without failure, ending
with loop variables `s`, the appends made so far (the traced run, whose
rendering is the `outputBuffer` of `s`) hold as many prologues as epilogues,
plus one exactly when the state is `Code`; the prologue and epilogue appends
alternate strictly, from a prologue on; so in state `Free` or `Literate` every
code block opened has been closed. -/
theorem prologue_epilogue_balance (lexer token : Str) (lines : List Str) (i : Nat) (s : Loop)
    (hs : afterPrefix lexer token lines i = .ok s) :
    ∃ t, tracedLoop lexer token 0 (lines.take i) initTraced = .ok t ∧
      t.erase = s ∧
      countPrologues t.emitted
        = countEpilogues t.emitted + (if s.state = .Code then 1 else 0) ∧
      blockMarks t.emitted = alternating (blockMarks t.emitted).length ∧
      (s.state ≠ .Code → countPrologues t.emitted = countEpilogues t.emitted) := by
  have herase := tracedLoop_erase lexer token (lines.take i) 0 initTraced
  have hinit : initTraced.erase = initLoop := rfl
  rw [hinit] at herase
  rw [afterPrefix] at hs
  cases ht : tracedLoop lexer token 0 (lines.take i) initTraced with
  | error e =>
    rw [ht, hs] at herase
    simp [Except.map] at herase
  | ok t =>
    rw [ht, hs] at herase
    simp only [Except.map, Except.ok.injEq] at herase
    obtain ⟨h1, _, h3⟩ := tracedLoop_BlockInv lexer token _ 0 initTraced t BlockInv_initTraced ht
    have hstate : t.state = s.state := by rw [← herase]; rfl
    rw [hstate] at h3
    refine ⟨t, rfl, herase, h3, h1, ?_⟩
    intro hne
    simpa [hne] using h3

theorem prologue_epilogue_balance_witness :
    ∃ t, tracedLoop "go".toList "//".toList 0
        (["// START".toList, "c1".toList, "// p".toList, "c2".toList, "// END".toList].take 4)
        initTraced = .ok t ∧
      t.erase = { state := .Code, lineno := 3,
                  outputBuffer := [[], fmtCodeBlockPrologue "go".toList 1, "c1".toList,
                    codeBlockEpilogue, "p".toList, [],
                    fmtCodeBlockPrologue "go".toList 2, "c2".toList] } ∧
      countPrologues t.emitted
        = countEpilogues t.emitted
          + (if ({ state := .Code, lineno := 3,
                   outputBuffer := [[], fmtCodeBlockPrologue "go".toList 1, "c1".toList,
                     codeBlockEpilogue, "p".toList, [],
                     fmtCodeBlockPrologue "go".toList 2, "c2".toList] } : Loop).state = .Code
             then 1 else 0) ∧
      blockMarks t.emitted = alternating (blockMarks t.emitted).length ∧
      (({ state := .Code, lineno := 3,
          outputBuffer := [[], fmtCodeBlockPrologue "go".toList 1, "c1".toList,
            codeBlockEpilogue, "p".toList, [],
            fmtCodeBlockPrologue "go".toList 2, "c2".toList] } : Loop).state ≠ .Code →
        countPrologues t.emitted = countEpilogues t.emitted) :=
  prologue_epilogue_balance "go".toList "//".toList
    ["// START".toList, "c1".toList, "// p".toList, "c2".toList, "// END".toList] 4
    { state := .Code, lineno := 3,
      outputBuffer := [[], fmtCodeBlockPrologue "go".toList 1, "c1".toList,
        codeBlockEpilogue, "p".toList, [],
        fmtCodeBlockPrologue "go".toList 2, "c2".toList] }
    (by decide)

end Literate
